import Mathlib

set_option maxRecDepth 8192

/-!
# A shallow embedding of the gorp table-mapping and statement-binding engine

This file models, in Lean 4, the core of the go-gorp/gorp object-relational
mapper: column metadata built by struct introspection (`readStructColumns`),
table registration (`AddTableWithNameAndSchema`), metadata mutation and plan
invalidation (`ResetSql`, `SetKeys`, `SetUniqueTogether`, `SetVersionCol`,
`Rename`, `SetTransient`), the per-operation cached binding plans
(`bindInsert`, `bindUpdate`, `bindDelete`, `bindGet`, `createBindInstance`),
the CRUD functions (`get`, `update`, `delete`) with optimistic-lock conflict
detection (`lockError`, `OptimisticLockError`), transactions
(`Commit`/`Rollback`), and the MySQL dialect's `CreateTableSuffix`.

Modelling conventions:
* Go struct values are association lists from field names to `GoValue`s;
  reflection (`FieldByName`, `SetInt`) becomes list lookup/update.
* The database driver is an external collaborator; it is modelled as an
  abstract `Executor` supplying the results of `Exec` (rows affected) and
  `QueryRow` (a row, no rows, or an error), exactly the capabilities the
  code consumes.
* Pointer identity between `TableMap.version`/`TableMap.keys` and entries of
  `TableMap.columns` is modelled by storing column indices.
* Panics become `Except String`; Go's `(value, error)` returns become pairs
  with `Option GErr`.
* Pre/post hook lookup (`runHook`) is modelled for record types that define
  no hook methods, where it returns nil; the claims under study do not
  involve hooks.  Likewise `TypeConverter.FromDb` custom scanners (a purely
  reflective mechanism) are not modelled; `ToDb` conversion is.
-/

namespace Gorp

/-- A Go value as it flows through gorp's binding engine: integers (the only
kind gorp itself inspects, for the version column), strings, and opaque
other values. -/
inductive GoValue where
  | vint (i : Int)
  | vstr (s : String)
  | vother (n : Nat)
deriving Repr, DecidableEq

/-- A Go struct value, as seen through reflection: an association list from
field names to values. -/
abbrev Elem := List (String × GoValue)

/-- Model of `reflect.Value.FieldByName(f)` followed by reading the value. -/
def Elem.fieldByName (e : Elem) (f : String) : GoValue :=
  match e.find? (fun p => p.1 = f) with
  | some p => p.2
  | none => GoValue.vother 0

/-- Model of `elem.FieldByName(f).Int()`: read an int64 field. -/
def Elem.getInt (e : Elem) (f : String) : Int :=
  match e.fieldByName f with
  | GoValue.vint i => i
  | _ => 0

/-- Model of `elem.FieldByName(f).SetInt(i)`: write an int64 field in place. -/
def Elem.setInt (e : Elem) (f : String) (i : Int) : Elem :=
  match e with
  | [] => [(f, GoValue.vint i)]
  | p :: rest => if p.1 = f then (f, GoValue.vint i) :: rest else p :: Elem.setInt rest f i

/-- ColumnMap represents a mapping between a Go struct field and a single
column in a table (gorp.go / part_000 `ColumnMap`; the `gotype`,
`References`, `Unique` and `MaxSize` fields only inform DDL generation and
are omitted). -/
structure ColumnMap where
  ColumnName : String
  Transient : Bool := false
  fieldName : String
  isPK : Bool := false
  isAutoIncr : Bool := false
  isNotNull : Bool := false
deriving Repr, DecidableEq

instance : Inhabited ColumnMap := ⟨{ ColumnName := "", fieldName := "" }⟩

/-! ## Struct introspection (`readStructColumns`, part_000 lines 88-142)

A Go struct type is a list of field declarations; an anonymous field of
struct kind is an embedded struct, which `readStructColumns` recursively
flattens. -/

/-- One field of a Go struct type: either a plain field with its name and
`db` tag, or an embedded (anonymous) struct field. -/
inductive FieldDecl where
  | plain (fname : String) (tag : String)
  | embedded (sub : List FieldDecl)

mutual

def FieldDecl.decEq : (a b : FieldDecl) → Decidable (a = b)
  | FieldDecl.plain f1 t1, FieldDecl.plain f2 t2 =>
    if h : f1 = f2 ∧ t1 = t2 then isTrue (by rw [h.1, h.2])
    else isFalse (fun hh => by
      injection hh with h1 h2
      exact h ⟨h1, h2⟩)
  | FieldDecl.plain _ _, FieldDecl.embedded _ => isFalse (fun h => FieldDecl.noConfusion h)
  | FieldDecl.embedded _, FieldDecl.plain _ _ => isFalse (fun h => FieldDecl.noConfusion h)
  | FieldDecl.embedded s1, FieldDecl.embedded s2 =>
    match FieldDecl.decEqList s1 s2 with
    | isTrue h => isTrue (by rw [h])
    | isFalse h => isFalse (fun hh => h (by injection hh))

def FieldDecl.decEqList : (a b : List FieldDecl) → Decidable (a = b)
  | [], [] => isTrue rfl
  | [], _ :: _ => isFalse (fun h => by injection h)
  | _ :: _, [] => isFalse (fun h => by injection h)
  | x :: xs, y :: ys =>
    match FieldDecl.decEq x y with
    | isFalse h1 => isFalse (fun h => h1 (by injection h))
    | isTrue h1 =>
      match FieldDecl.decEqList xs ys with
      | isTrue h2 => isTrue (by rw [h1, h2])
      | isFalse h2 => isFalse (fun h => h2 (by injection h))

end

instance : DecidableEq FieldDecl := FieldDecl.decEq
instance : DecidableEq (List FieldDecl) := FieldDecl.decEqList

/-- The inner loop of `readStructColumns` for a sub-column of an embedded
struct: don't append nested fields that have the same field name as an
already-mapped field. -/
def appendSubCol (cols : List ColumnMap) (subcol : ColumnMap) : List ColumnMap :=
  if ¬subcol.Transient ∧ cols.any (fun col => subcol.fieldName = col.fieldName) then cols
  else cols ++ [subcol]

/-- The inner loop of `readStructColumns` for a directly declared field:
check for nested fields of the same field name and override them (replace
the first non-transient column with a matching field name, else append). -/
def overrideCol (cols : List ColumnMap) (cm : ColumnMap) : List ColumnMap :=
  match cols with
  | [] => [cm]
  | col :: rest =>
    if ¬col.Transient ∧ col.fieldName = cm.fieldName then cm :: rest
    else col :: overrideCol rest cm

/-- Model of `readStructColumns` (part_000 lines 88-142), written as a loop over the
remaining fields carrying the accumulated columns and version column. -/
def readStructFields : List FieldDecl → List ColumnMap → Option ColumnMap →
    List ColumnMap × Option ColumnMap
  | [], cols, version => (cols, version)
  | FieldDecl.embedded sub :: fs, cols, version =>
    let sv := readStructFields sub [] none
    let cols := sv.1.foldl appendSubCol cols
    let version := match sv.2 with
      | some v => some v
      | none => version
    readStructFields fs cols version
  | FieldDecl.plain fname tag :: fs, cols, version =>
    let columnName := if tag = "" then fname else tag
    let cm : ColumnMap := { ColumnName := columnName, Transient := columnName = "-",
                            fieldName := fname }
    let cols := overrideCol cols cm
    let version := if cm.fieldName = "Version" then some cm else version
    readStructFields fs cols version
termination_by fields _ _ => sizeOf fields

/-- Model of `readStructColumns(t)`: the flattened column list and version column of a
struct type. -/
def readStructColumns (fields : List FieldDecl) : List ColumnMap × Option ColumnMap :=
  readStructFields fields [] none

/-- The field names of the non-transient columns of a column list. -/
def nontransientNames (cols : List ColumnMap) : List String :=
  (cols.filter (fun c => ¬c.Transient)).map (fun c => c.fieldName)

/-! ## Table metadata and registration -/

/-- The identity of a Go record type as used by the registry: its name
(`reflect.Type.Name()`) and its field declarations.  Registry lookups
compare `reflect.Type` values, modelled as equality of this structure. -/
structure GoType where
  name : String
  fields : List FieldDecl
deriving DecidableEq

/-- A statement binding plan: compiled SQL text plus the ordered field lists
used to extract argument and key values at execution time (`bindPlan`).
The Go zero value has empty strings and nil slices; `query = ""` marks the
plan as not yet built. -/
structure bindPlan where
  query : String := ""
  argFields : List String := []
  keyFields : List String := []
  versField : String := ""
  autoIncrIdx : Int := 0
  autoIncrFieldName : String := ""
deriving Repr, DecidableEq

/-- TableMap represents a mapping between a Go struct and a database table.
`keys` and `version` hold indices into `columns`, modelling the Go pointers
into the column slice. -/
structure TableMap where
  TableName : String
  SchemaName : String := ""
  gotype : GoType := ⟨"", []⟩
  columns : List ColumnMap := []
  keys : List Nat := []
  uniqueTogether : List (List String) := []
  version : Option Nat := none
  insertPlan : bindPlan := {}
  updatePlan : bindPlan := {}
  deletePlan : bindPlan := {}
  getPlan : bindPlan := {}

/-- The column at index `i` of the table (dereferencing a `*ColumnMap`). -/
def TableMap.col (t : TableMap) (i : Nat) : ColumnMap :=
  t.columns.getD i default

/-- Model of `readStructColumns` returns pointers into the produced slice; converting
the version column to its index in the column list recovers the pointer
identity used by `col == t.version` comparisons. -/
def versionIndex (cols : List ColumnMap) (version : Option ColumnMap) : Option Nat :=
  match version with
  | none => none
  | some v => cols.findIdx? (fun c => c = v)

/-- The registry: the `tables` list of a `DbMap`. -/
structure DbRegistry where
  tables : List TableMap := []

/-- The inner loop of `AddTableWithNameAndSchema`: scan the registered
tables for one with this go type; if found, update the name in place and
return the existing entry. -/
def updateExistingTable : List TableMap → GoType → String →
    Option (TableMap × List TableMap)
  | [], _, _ => none
  | tbl :: rest, t, name =>
    if tbl.gotype = t then
      let tbl' := { tbl with TableName := name }
      some (tbl', tbl' :: rest)
    else
      match updateExistingTable rest t name with
      | some (r, rest') => some (r, tbl :: rest')
      | none => none

/-- Model of `AddTableWithNameAndSchema` (part_000 lines 65-86): register a type,
idempotently.  Returns the (new or existing) table and the updated
registry. -/
def addTableWithNameAndSchema (m : DbRegistry) (i : GoType) (schema name : String) :
    TableMap × DbRegistry :=
  let name := if name = "" then i.name else name
  match updateExistingTable m.tables i name with
  | some (tbl, tables') => (tbl, { m with tables := tables' })
  | none =>
    let cv := readStructColumns i.fields
    let tmap : TableMap := { gotype := i, TableName := name, SchemaName := schema,
                             columns := cv.1, version := versionIndex cv.1 cv.2 }
    (tmap, { m with tables := m.tables ++ [tmap] })

/-- Model of `AddTableWithName` (gorp.go lines 1456-1477 / part_000 line 59). -/
def addTableWithName (m : DbRegistry) (i : GoType) (name : String) : TableMap × DbRegistry :=
  addTableWithNameAndSchema m i "" name

/-! ## Metadata mutation and plan invalidation -/

/-- Model of `ResetSql` (part_000 lines 326-331): removes the cached
insert/update/select/delete SQL plans of this TableMap. -/
def TableMap.ResetSql (t : TableMap) : TableMap :=
  { t with insertPlan := {}, updatePlan := {}, deletePlan := {}, getPlan := {} }

/-- Model of `colMapOrNil`: find the first column matching a struct field name or a
column name, as an index. -/
def colIdxOrNil (t : TableMap) (field : String) : Option Nat :=
  t.columns.findIdx? (fun col => col.fieldName = field ∨ col.ColumnName = field)

/-- Model of `ColMap`: like `colIdxOrNil` but panics when no column matches. -/
def TableMap.ColMap (t : TableMap) (field : String) : Except String Nat :=
  match colIdxOrNil t field with
  | some i => Except.ok i
  | none => Except.error ("No ColumnMap in table " ++ t.TableName ++ " type " ++
      t.gotype.name ++ " with field " ++ field)

/-- The loop body of `SetKeys` over the requested field names. -/
def setKeysLoop (t : TableMap) (isAutoIncr : Bool) : List String → Except String TableMap
  | [] => Except.ok t
  | name :: rest =>
    match t.ColMap name with
    | Except.error e => Except.error e
    | Except.ok i =>
      let colmap := { t.col i with isPK := true, isAutoIncr := isAutoIncr }
      let t := { t with columns := t.columns.set i colmap, keys := t.keys ++ [i] }
      setKeysLoop t isAutoIncr rest

/-- Model of `SetKeys` (part_000 lines 341-357): specify the primary key fields.
Panics when `isAutoIncr` is set and there is not exactly one field name.
Automatically calls `ResetSql`. -/
def TableMap.SetKeys (t : TableMap) (isAutoIncr : Bool) (fieldNames : List String) :
    Except String TableMap :=
  if isAutoIncr ∧ fieldNames.length ≠ 1 then
    Except.error "gorp: SetKeys: fieldNames length must be 1 if key is auto-increment."
  else
    match setKeysLoop { t with keys := [] } isAutoIncr fieldNames with
    | Except.error e => Except.error e
    | Except.ok t => Except.ok t.ResetSql

/-- Model of `SetUniqueTogether` (part_000 lines 367-381): add a multi-column
uniqueness constraint; panics when fewer than two field names are given.
Automatically calls `ResetSql`. -/
def TableMap.SetUniqueTogether (t : TableMap) (fieldNames : List String) :
    Except String TableMap :=
  if fieldNames.length < 2 then
    Except.error "gorp: SetUniqueTogether: must provide at least two fieldNames to set uniqueness constraint."
  else
    Except.ok ({ t with uniqueTogether := t.uniqueTogether ++ [fieldNames] }).ResetSql

/-- Model of `SetVersionCol` (part_000 lines 411-416): set the optimistic-locking
version column.  Automatically calls `ResetSql`. -/
def TableMap.SetVersionCol (t : TableMap) (field : String) : Except String TableMap :=
  match t.ColMap field with
  | Except.error e => Except.error e
  | Except.ok i => Except.ok { t.ResetSql with version := some i }

/-- Model of `table.ColMap(field).Rename(colname)` (part_000 lines 453-456): rename a
column in place through the pointer returned by `ColMap`.  `Rename` itself
only assigns `c.ColumnName`. -/
def TableMap.renameColumn (t : TableMap) (field colname : String) :
    Except String TableMap :=
  match t.ColMap field with
  | Except.error e => Except.error e
  | Except.ok i => Except.ok { t with columns := t.columns.set i { t.col i with ColumnName := colname } }

/-- Model of `table.ColMap(field).SetTransient(b)` (part_000 lines 460-463): mark a
column transient in place.  `SetTransient` itself only assigns
`c.Transient`. -/
def TableMap.setTransientColumn (t : TableMap) (field : String) (b : Bool) :
    Except String TableMap :=
  match t.ColMap field with
  | Except.error e => Except.error e
  | Except.ok i => Except.ok { t with columns := t.columns.set i { t.col i with Transient := b } }

/-! ## Statement binding plans (gorp.go lines 1047-1307) -/

/-- The `versFieldConst` sentinel (gorp.go line 841) marking the position of
the version column in `argFields`. -/
def versFieldConst : String := "[gorp_ver_field]"

/-- The dialect operations consumed by the binding-plan builders. -/
structure Dialect where
  quoteField : String → String
  bindVar : Nat → String
  autoIncrBindValue : String
  autoIncrInsertSuffix : ColumnMap → String

/-- The error values surfaced by the modelled engine. -/
structure OptimisticLockError where
  TableName : String
  Keys : List GoValue
  RowExists : Bool
  LocalVersion : Int
deriving Repr, DecidableEq

inductive GErr where
  | errTxDone
  | optimisticLock (e : OptimisticLockError)
  | convErr (s : String)
  | dbErr (s : String)
  | scanMismatch
deriving Repr, DecidableEq

/-- The configuration a `TableMap`'s back-pointer `dbmap` supplies to the
binding engine: the dialect and the optional `TypeConverter.ToDb`. -/
structure DbConf where
  dialect : Dialect
  conv : Option (GoValue → Except String GoValue) := none

/-- A plan instantiated against one struct value (`bindInstance`). -/
structure bindInstance where
  query : String := ""
  args : List GoValue := []
  keys : List GoValue := []
  existingVersion : Int := 0
  versField : String := ""
  autoIncrIdx : Int := 0
  autoIncrFieldName : String := ""
deriving Repr, DecidableEq

/-- The `argFields` loop of `createBindInstance` (gorp.go lines 1064-1082):
bind the virtual next version for the `versFieldConst` sentinel (writing it
back to the struct when the existing version is the zero value), and the
(possibly converted) field value otherwise. -/
def bindArgsLoop (conv : Option (GoValue → Except String GoValue)) (versField : String)
    (existingVersion : Int) :
    List String → List GoValue → Elem → Except GErr (List GoValue × Elem)
  | [], args, elem => Except.ok (args, elem)
  | k :: ks, args, elem =>
    if k = versFieldConst then
      let newVer := existingVersion + 1
      let elem := if existingVersion = 0 then elem.setInt versField newVer else elem
      bindArgsLoop conv versField existingVersion ks (args ++ [GoValue.vint newVer]) elem
    else
      let val := elem.fieldByName k
      match conv with
      | none => bindArgsLoop conv versField existingVersion ks (args ++ [val]) elem
      | some c =>
        match c val with
        | Except.error e => Except.error (GErr.convErr e)
        | Except.ok val => bindArgsLoop conv versField existingVersion ks (args ++ [val]) elem

/-- The `keyFields` loop of `createBindInstance` (gorp.go lines 1084-1094). -/
def bindKeysLoop (conv : Option (GoValue → Except String GoValue)) (elem : Elem) :
    List String → List GoValue → Except GErr (List GoValue)
  | [], keys => Except.ok keys
  | k :: ks, keys =>
    let val := elem.fieldByName k
    match conv with
    | none => bindKeysLoop conv elem ks (keys ++ [val])
    | some c =>
      match c val with
      | Except.error e => Except.error (GErr.convErr e)
      | Except.ok val => bindKeysLoop conv elem ks (keys ++ [val])

/-- Model of `createBindInstance` (gorp.go lines 1056-1097): extract the argument and
key values for a plan from a struct value.  Returns the instance together
with the (possibly version-stamped) struct. -/
def bindPlan.createBindInstance (plan : bindPlan) (elem : Elem)
    (conv : Option (GoValue → Except String GoValue)) : Except GErr (bindInstance × Elem) :=
  let existingVersion : Int :=
    if plan.versField ≠ "" then elem.getInt plan.versField else 0
  match bindArgsLoop conv plan.versField existingVersion plan.argFields [] elem with
  | Except.error e => Except.error e
  | Except.ok (args, elem) =>
    match bindKeysLoop conv elem plan.keyFields [] with
    | Except.error e => Except.error e
    | Except.ok keys =>
      Except.ok ({ query := plan.query, args := args, keys := keys,
                   existingVersion := existingVersion, versField := plan.versField,
                   autoIncrIdx := plan.autoIncrIdx,
                   autoIncrFieldName := plan.autoIncrFieldName }, elem)

/-- The column loop of `bindInsert`'s plan construction (gorp.go lines
1120-1148), carrying the two SQL buffers, the bind-variable counter, the
`first` flag and the plan being filled. -/
def insColsLoop (d : Dialect) (version : Option Nat) :
    List (Nat × ColumnMap) → String → String → Nat → Bool → bindPlan →
    String × String × bindPlan
  | [], s, s2, _, _, plan => (s, s2, plan)
  | (y, col) :: rest, s, s2, x, first, plan =>
    if !col.Transient then
      let s := if !first then s ++ "," else s
      let s2 := if !first then s2 ++ "," else s2
      let s := s ++ d.quoteField col.ColumnName
      if col.isAutoIncr then
        let s2 := s2 ++ d.autoIncrBindValue
        let plan := { plan with autoIncrIdx := (y : Int), autoIncrFieldName := col.fieldName }
        insColsLoop d version rest s s2 x false plan
      else
        let s2 := s2 ++ d.bindVar x
        let plan :=
          if version = some y then
            { plan with versField := col.fieldName,
                        argFields := plan.argFields ++ [versFieldConst] }
          else
            { plan with argFields := plan.argFields ++ [col.fieldName] }
        insColsLoop d version rest s s2 (x + 1) false plan
    else
      insColsLoop d version rest s s2 x first plan

/-- The plan-construction body of `bindInsert` (gorp.go lines 1110-1159). -/
def buildInsertPlan (d : Dialect) (t : TableMap) : bindPlan :=
  let plan := { t.insertPlan with autoIncrIdx := (-1 : Int) }
  let s := "insert into " ++ d.quoteField t.TableName ++ " ("
  let r := insColsLoop d t.version t.columns.enum s "" 0 true plan
  let s := r.1 ++ ") values (" ++ r.2.1 ++ ")"
  let plan := r.2.2
  let s := if plan.autoIncrIdx > -1 then
      s ++ d.autoIncrInsertSuffix (t.columns.getD plan.autoIncrIdx.toNat default)
    else s
  { plan with query := s ++ ";" }

/-- Model of `bindInsert` (gorp.go lines 1109-1162): build (or reuse) the cached
insert plan, then instantiate it against the struct.  Returns the result,
the table with the (possibly newly cached) plan, and the struct. -/
def TableMap.bindInsert (m : DbConf) (t : TableMap) (elem : Elem) :
    Except GErr (bindInstance × Elem) × TableMap :=
  let plan := t.insertPlan
  if plan.query = "" then
    let plan := buildInsertPlan m.dialect t
    (plan.createBindInstance elem m.conv, { t with insertPlan := plan })
  else
    (plan.createBindInstance elem m.conv, t)

/-- The SET-clause column loop of `bindUpdate` (gorp.go lines 1172-1190). -/
def updColsLoop (d : Dialect) (version : Option Nat) :
    List (Nat × ColumnMap) → String → Nat → bindPlan → String × Nat × bindPlan
  | [], s, x, plan => (s, x, plan)
  | (y, col) :: rest, s, x, plan =>
    if !col.isPK && !col.Transient then
      let s := if x > 0 then s ++ ", " else s
      let s := s ++ d.quoteField col.ColumnName ++ "=" ++ d.bindVar x
      let plan :=
        if version = some y then
          { plan with versField := col.fieldName,
                      argFields := plan.argFields ++ [versFieldConst] }
        else
          { plan with argFields := plan.argFields ++ [col.fieldName] }
      updColsLoop d version rest s (x + 1) plan
    else
      updColsLoop d version rest s x plan

/-- The WHERE-clause key loop of `bindUpdate` (gorp.go lines 1193-1205),
appending each key field to both `argFields` and `keyFields`. -/
def updKeysLoop (d : Dialect) (cols : List ColumnMap) :
    List (Nat × Nat) → String → Nat → bindPlan → String × Nat × bindPlan
  | [], s, x, plan => (s, x, plan)
  | (y, k) :: rest, s, x, plan =>
    let col := cols.getD k default
    let s := if y > 0 then s ++ " and " else s
    let s := s ++ d.quoteField col.ColumnName ++ "=" ++ d.bindVar x
    let plan := { plan with argFields := plan.argFields ++ [col.fieldName],
                            keyFields := plan.keyFields ++ [col.fieldName] }
    updKeysLoop d cols rest s (x + 1) plan

/-- The plan-construction body of `bindUpdate` (gorp.go lines 1164-1217). -/
def buildUpdatePlan (d : Dialect) (t : TableMap) : bindPlan :=
  let s := "update " ++ d.quoteField t.TableName ++ " set "
  let r := updColsLoop d t.version t.columns.enum s 0 t.updatePlan
  let s := r.1 ++ " where "
  let r := updKeysLoop d t.columns t.keys.enum s r.2.1 r.2.2
  let s := r.1
  let x := r.2.1
  let plan := r.2.2
  let s :=
    if plan.versField ≠ "" then
      s ++ " and " ++
        d.quoteField (t.col (t.version.getD 0)).ColumnName ++ "=" ++ d.bindVar x
    else s
  let plan :=
    if plan.versField ≠ "" then { plan with argFields := plan.argFields ++ [plan.versField] }
    else plan
  { plan with query := s ++ ";" }

/-- Model of `bindUpdate` (gorp.go lines 1164-1220). -/
def TableMap.bindUpdate (m : DbConf) (t : TableMap) (elem : Elem) :
    Except GErr (bindInstance × Elem) × TableMap :=
  let plan := t.updatePlan
  if plan.query = "" then
    let plan := buildUpdatePlan m.dialect t
    (plan.createBindInstance elem m.conv, { t with updatePlan := plan })
  else
    (plan.createBindInstance elem m.conv, t)

/-- The version-scanning column loop of `bindDelete` (gorp.go lines
1229-1236). -/
def delColsLoop (version : Option Nat) :
    List (Nat × ColumnMap) → bindPlan → bindPlan
  | [], plan => plan
  | (y, col) :: rest, plan =>
    let plan :=
      if !col.Transient then
        if version = some y then { plan with versField := col.fieldName } else plan
      else plan
    delColsLoop version rest plan

/-- The WHERE-clause key loop of `bindDelete` (gorp.go lines 1239-1250). -/
def delKeysLoop (d : Dialect) (cols : List ColumnMap) :
    List (Nat × Nat) → String → bindPlan → String × bindPlan
  | [], s, plan => (s, plan)
  | (x, k) :: rest, s, plan =>
    let col := cols.getD k default
    let s := if x > 0 then s ++ " and " else s
    let s := s ++ d.quoteField col.ColumnName ++ "=" ++ d.bindVar x
    let plan := { plan with keyFields := plan.keyFields ++ [col.fieldName],
                            argFields := plan.argFields ++ [col.fieldName] }
    delKeysLoop d cols rest s plan

/-- The plan-construction body of `bindDelete` (gorp.go lines 1222-1263).
The trailing version clause uses `BindVar(len(plan.argFields))` and appends
the version field to `argFields`. -/
def buildDeletePlan (d : Dialect) (t : TableMap) : bindPlan :=
  let s := "delete from " ++ d.quoteField t.TableName
  let plan := delColsLoop t.version t.columns.enum t.deletePlan
  let s := s ++ " where "
  let r := delKeysLoop d t.columns t.keys.enum s plan
  let s := r.1
  let plan := r.2
  let s :=
    if plan.versField ≠ "" then
      s ++ " and " ++ d.quoteField (t.col (t.version.getD 0)).ColumnName ++ "=" ++
        d.bindVar plan.argFields.length
    else s
  let plan :=
    if plan.versField ≠ "" then { plan with argFields := plan.argFields ++ [plan.versField] }
    else plan
  { plan with query := s ++ ";" }

/-- Model of `bindDelete` (gorp.go lines 1222-1266). -/
def TableMap.bindDelete (m : DbConf) (t : TableMap) (elem : Elem) :
    Except GErr (bindInstance × Elem) × TableMap :=
  let plan := t.deletePlan
  if plan.query = "" then
    let plan := buildDeletePlan m.dialect t
    (plan.createBindInstance elem m.conv, { t with deletePlan := plan })
  else
    (plan.createBindInstance elem m.conv, t)

/-- The SELECT column loop of `bindGet` (gorp.go lines 1276-1285). -/
def getColsLoop (d : Dialect) :
    List ColumnMap → String → Nat → bindPlan → String × bindPlan
  | [], s, _, plan => (s, plan)
  | col :: rest, s, x, plan =>
    if !col.Transient then
      let s := if x > 0 then s ++ "," else s
      let s := s ++ d.quoteField col.ColumnName
      let plan := { plan with argFields := plan.argFields ++ [col.fieldName] }
      getColsLoop d rest s (x + 1) plan
    else
      getColsLoop d rest s x plan

/-- The WHERE-clause key loop of `bindGet` (gorp.go lines 1289-1299). -/
def getKeysLoop (d : Dialect) (cols : List ColumnMap) :
    List (Nat × Nat) → String → bindPlan → String × bindPlan
  | [], s, plan => (s, plan)
  | (x, k) :: rest, s, plan =>
    let col := cols.getD k default
    let s := if x > 0 then s ++ " and " else s
    let s := s ++ d.quoteField col.ColumnName ++ "=" ++ d.bindVar x
    let plan := { plan with keyFields := plan.keyFields ++ [col.fieldName] }
    getKeysLoop d cols rest s plan

/-- The plan-construction body of `bindGet` (gorp.go lines 1268-1307). -/
def buildGetPlan (d : Dialect) (t : TableMap) : bindPlan :=
  let r := getColsLoop d t.columns "select " 0 t.getPlan
  let s := r.1 ++ " from " ++ d.quoteField t.TableName ++ " where "
  let r := getKeysLoop d t.columns t.keys.enum s r.2
  { r.2 with query := r.1 ++ ";" }

/-- Model of `bindGet` (gorp.go lines 1268-1307): build (or reuse) the cached get
plan. -/
def TableMap.bindGet (d : Dialect) (t : TableMap) : bindPlan × TableMap :=
  let plan := t.getPlan
  if plan.query = "" then
    let plan := buildGetPlan d t
    (plan, { t with getPlan := plan })
  else
    (plan, t)

/-! ## The CRUD engine (gorp.go lines 2446-2676)

The database driver is an external collaborator.  An `Executor` gives the
driver's responses: `execStmt` models `Exec` followed by `RowsAffected`
(either of which can fail), `queryRow` models `QueryRow` followed by
`Scan` (which reports `sql.ErrNoRows` when the SELECT matched nothing). -/

/-- Outcome of `exec.Exec` + `res.RowsAffected()`. -/
inductive ExecOutcome where
  | execErr (e : GErr)
  | rowsErr (e : GErr)
  | rows (n : Int)
deriving Repr, DecidableEq

/-- Outcome of `exec.queryRow(...).Scan(...)`: no matching row
(`sql.ErrNoRows`), another scan/execution error, or the row's column
values. -/
inductive RowResult where
  | noRows
  | rowErr (e : GErr)
  | row (vals : List GoValue)
deriving Repr, DecidableEq

structure Executor where
  execStmt : String → List GoValue → ExecOutcome
  queryRow : String → List GoValue → RowResult

/-- Model of `get` (gorp.go lines 2446-2502): SELECT one row by primary key.  When
the query matches no row (`sql.ErrNoRows`), the error is replaced by nil
and a nil result is returned; other errors are returned unchanged.  The
scanned struct holds the values bound to the plan's `argFields`. -/
def get (m : DbConf) (exec : Executor) (t : TableMap) (keys : List GoValue) :
    Except GErr (Option Elem) × TableMap :=
  let pt := t.bindGet m.dialect
  let plan := pt.1
  let t := pt.2
  match exec.queryRow plan.query keys with
  | RowResult.noRows => (Except.ok none, t)
  | RowResult.rowErr e => (Except.error e, t)
  | RowResult.row vals =>
    if vals.length = plan.argFields.length then
      (Except.ok (some (plan.argFields.zip vals)), t)
    else
      (Except.error GErr.scanMismatch, t)

/-- Model of `lockError` (gorp.go lines 2662-2676): on a suspected optimistic-lock
conflict, reload the row by its key values; report `RowExists := false`
when the reload finds nothing.  Returns the sentinel rows-affected count
`-1` together with the `OptimisticLockError`. -/
def lockError (m : DbConf) (exec : Executor) (t : TableMap) (existingVer : Int)
    (keys : List GoValue) : (Int × Option GErr) × TableMap :=
  match get m exec t keys with
  | (Except.error e, t) => ((-1, some e), t)
  | (Except.ok existing, t) =>
    let ole : OptimisticLockError :=
      { TableName := t.TableName, Keys := keys, RowExists := true,
        LocalVersion := existingVer }
    let ole := if existing = none then { ole with RowExists := false } else ole
    ((-1, some (GErr.optimisticLock ole)), t)

/-- Model of `update` (gorp.go lines 2549-2596), iterating over the records to
update.  Each record is paired with its resolved table
(`tableForPointer`).  Returns the cumulative rows-affected count (or the
sentinel `-1` with an error) and the final table/record states. -/
def updateLoop (m : DbConf) (exec : Executor) :
    List (TableMap × Elem) → Int → (Int × Option GErr) × List (TableMap × Elem)
  | [], count => ((count, none), [])
  | (t, elem) :: rest, count =>
    match t.bindUpdate m elem with
    | (Except.error e, t) => ((-1, some e), (t, elem) :: rest)
    | (Except.ok (bi, elem), t) =>
      match exec.execStmt bi.query bi.args with
      | ExecOutcome.execErr e => ((-1, some e), (t, elem) :: rest)
      | ExecOutcome.rowsErr e => ((-1, some e), (t, elem) :: rest)
      | ExecOutcome.rows rows =>
        if rows = 0 ∧ bi.existingVersion > 0 then
          let r := lockError m exec t bi.existingVersion bi.keys
          (r.1, (r.2, elem) :: rest)
        else
          let elem := if bi.versField ≠ "" then
              elem.setInt bi.versField (bi.existingVersion + 1)
            else elem
          let r := updateLoop m exec rest (count + rows)
          (r.1, (t, elem) :: r.2)

/-- Model of `update` entry point (count starts at 0). -/
def update (m : DbConf) (exec : Executor) (list : List (TableMap × Elem)) :
    (Int × Option GErr) × List (TableMap × Elem) :=
  updateLoop m exec list 0

/-- Model of `delete` (gorp.go lines 2504-2547). -/
def deleteLoop (m : DbConf) (exec : Executor) :
    List (TableMap × Elem) → Int → (Int × Option GErr) × List (TableMap × Elem)
  | [], count => ((count, none), [])
  | (t, elem) :: rest, count =>
    match t.bindDelete m elem with
    | (Except.error e, t) => ((-1, some e), (t, elem) :: rest)
    | (Except.ok (bi, elem), t) =>
      match exec.execStmt bi.query bi.args with
      | ExecOutcome.execErr e => ((-1, some e), (t, elem) :: rest)
      | ExecOutcome.rowsErr e => ((-1, some e), (t, elem) :: rest)
      | ExecOutcome.rows rows =>
        if rows = 0 ∧ bi.existingVersion > 0 then
          let r := lockError m exec t bi.existingVersion bi.keys
          (r.1, (r.2, elem) :: rest)
        else
          let r := deleteLoop m exec rest (count + rows)
          (r.1, (t, elem) :: r.2)

/-- Model of `delete` entry point. -/
def delete (m : DbConf) (exec : Executor) (list : List (TableMap × Elem)) :
    (Int × Option GErr) × List (TableMap × Elem) :=
  deleteLoop m exec list 0

/-! ## Transactions (gorp.go lines 1374-1382, 1941-1961)

The underlying `*sql.Tx` is a collaborator; the model records how many
commit/rollback statements have been issued to it, and the result the
driver would return is passed in. -/

/-- The driver-side transaction handle, recording issued operations. -/
structure TxDriver where
  commits : Nat := 0
  rollbacks : Nat := 0
deriving Repr, DecidableEq

/-- Model of `Transaction` (gorp.go lines 1378-1382). -/
structure Transaction where
  tx : TxDriver := {}
  closed : Bool := false
deriving Repr, DecidableEq

/-- Model of `Transaction.Commit` (gorp.go lines 1942-1950): issue a commit to the
driver and mark the transaction closed, unless it is already closed, in
which case report `sql.ErrTxDone` without touching the driver.
`driverResult` is the error (if any) the driver's `tx.Commit()` returns. -/
def Transaction.Commit (t : Transaction) (driverResult : Option GErr) :
    Option GErr × Transaction :=
  if ¬t.closed then
    let t := { t with closed := true, tx := { t.tx with commits := t.tx.commits + 1 } }
    (driverResult, t)
  else
    (some GErr.errTxDone, t)

/-- Model of `Transaction.Rollback` (gorp.go lines 1953-1961). -/
def Transaction.Rollback (t : Transaction) (driverResult : Option GErr) :
    Option GErr × Transaction :=
  if ¬t.closed then
    let t := { t with closed := true, tx := { t.tx with rollbacks := t.tx.rollbacks + 1 } }
    (driverResult, t)
  else
    (some GErr.errTxDone, t)

/-! ## The MySQL dialect's create-table suffix (part_009 lines 301-319) -/

/-- Model of `MySQLDialect` (part_009 lines 241-248). -/
structure MySQLDialect where
  Engine : String
  Encoding : String
deriving Repr, DecidableEq

/-- Model of `MySQLDialect.CreateTableSuffix` (part_009 lines 301-319): panics (here:
`Except.error`) naming the missing settings when the engine or the encoding
is unconfigured; otherwise returns the engine/charset suffix. -/
def MySQLDialect.CreateTableSuffix (m : MySQLDialect) : Except String String :=
  if m.Engine = "" ∨ m.Encoding = "" then
    let msg := "gorp - undefined"
    let msg := if m.Engine = "" then msg ++ " MySQLDialect.Engine" else msg
    let msg := if m.Engine = "" ∧ m.Encoding = "" then msg ++ "," else msg
    let msg := if m.Encoding = "" then msg ++ " MySQLDialect.Encoding" else msg
    Except.error (msg ++ ". Check that your MySQLDialect was correctly initialized when declared.")
  else
    Except.ok (" engine=" ++ m.Engine ++ " charset=" ++ m.Encoding)

/-! ## The race-safe memoized binding plans (table_bindings.go)

The current revision of the plan builders (the second document of
mapping_test.go, lines 183-503) guards each plan's construction with a
`sync.Once`.  Under the sequential semantics of `once.Do`, the body runs
when the `done` flag is unset and every later call reuses the stored
plan. -/

namespace TB

/-- The kind of a column's Go type (`reflect.Kind` collapsed to the groups
the binding code distinguishes). -/
inductive GoKind where
  | kbool
  | kint
  | kfloat
  | kstring
  | kother
deriving Repr, DecidableEq

/-- Model of `getZeroValueStringForSQL` (table_bindings.go lines 325-337). -/
def getZeroValueStringForSQL : GoKind → String
  | GoKind.kbool => "false"
  | GoKind.kint => "0"
  | GoKind.kfloat => "0.0"
  | _ => "''"

/-- Model of `strings.Trim(value, "'")`. -/
def trimQuotes (s : String) : String :=
  ((s.toList.dropWhile (fun c => c = '\'')).reverse.dropWhile (fun c => c = '\'')).reverse.asString

/-- Model of `strconv.ParseFloat` followed by `fmt.Sprintf("%v", f)`, modelled for
plain decimal literals (optional sign, digits, optional fraction): the
integer part loses leading zeros, the fraction loses trailing zeros and is
dropped when empty.  Exponent forms and values where float64 rounding would
alter the digits are outside the model. -/
def parseFloatRepr (s : String) : Option String :=
  let (sign, body) :=
    if s.startsWith "-" then ("-", s.drop 1) else ("", s)
  let parts := body.splitOn "."
  let intPart := parts.getD 0 ""
  let fracPart := parts.getD 1 ""
  if parts.length > 2 ∨ intPart = "" ∨ ¬intPart.all Char.isDigit ∨
      ¬fracPart.all Char.isDigit ∨ (parts.length = 2 ∧ fracPart = "") then
    none
  else
    let intN := intPart.toNat!
    let frac := (fracPart.toList.reverse.dropWhile (fun c => c = '0')).reverse.asString
    let core := toString intN ++ (if frac = "" then "" else "." ++ frac)
    some (if sign = "-" ∧ core ≠ "0" then "-" ++ core else core)

/-- Model of `getValueAsType` (table_bindings.go lines 339-360). -/
def getValueAsType (t : GoKind) (value : String) : Except String String :=
  let value := trimQuotes value
  match t with
  | GoKind.kint =>
    match value.toInt? with
    | none => Except.error "strconv.Atoi: parsing failed"
    | some n => Except.ok (toString n)
  | GoKind.kfloat =>
    match parseFloatRepr value with
    | none => Except.error "strconv.ParseFloat: parsing failed"
    | some s => Except.ok s
  | _ => Except.ok ("'" ++ value ++ "'")

/-- The current `ColumnMap`, extended with a column-level SQL default
value. -/
structure ColumnMap where
  ColumnName : String
  Transient : Bool := false
  fieldName : String
  gotype : GoKind := GoKind.kstring
  isPK : Bool := false
  isAutoIncr : Bool := false
  DefaultValue : String := ""
deriving Repr, DecidableEq

instance : Inhabited ColumnMap := ⟨{ ColumnName := "", fieldName := "" }⟩

/-- Model of `ColumnFilter` (table_bindings.go line 172). -/
abbrev ColumnFilter := ColumnMap → Bool

/-- Model of `acceptAllFilter` (table_bindings.go lines 174-176). -/
def acceptAllFilter : ColumnFilter := fun _ => true

/-- The dialect operations the current builders consume. -/
structure Dialect where
  quoteField : String → String
  quotedTableForQuery : String → String → String
  bindVar : Nat → String
  bindVarWithType : Nat → GoKind → String
  autoIncrBindValue : String
  autoIncrInsertSuffix : ColumnMap → String
  querySuffix : String

/-- The current `bindPlan` (table_bindings.go lines 183-191); `done` is the
state of the plan's `sync.Once`. -/
structure bindPlan where
  query : String := ""
  argFields : List String := []
  keyFields : List String := []
  versField : String := ""
  autoIncrIdx : Int := 0
  autoIncrFieldName : String := ""
  done : Bool := false

/-- The current `TableMap` (capitalised `Columns`, schema support), with
`keys`/`version` as indices into `Columns`. -/
structure TableMap where
  TableName : String
  SchemaName : String := ""
  Columns : List ColumnMap := []
  keys : List Nat := []
  version : Option Nat := none
  insertPlan : bindPlan := {}
  updatePlan : bindPlan := {}
  deletePlan : bindPlan := {}
  getPlan : bindPlan := {}

def TableMap.col (t : TableMap) (i : Nat) : ColumnMap :=
  t.Columns.getD i default

/-- The column loop of the current `bindInsert` (table_bindings.go lines
255-310), including the `DefaultValue` case-when expression. -/
def insColsLoop (d : Dialect) (version : Option Nat) :
    List (Nat × ColumnMap) → String → String → Nat → Bool → bindPlan →
    String × String × bindPlan
  | [], s, s2, _, _, plan => (s, s2, plan)
  | (y, col) :: rest, s, s2, x, first, plan =>
    if ¬(col.isAutoIncr ∧ d.autoIncrBindValue = "") then
      if ¬col.Transient then
        let s := if ¬first then s ++ "," else s
        let s2 := if ¬first then s2 ++ "," else s2
        let s := s ++ d.quoteField col.ColumnName
        if col.isAutoIncr then
          let s2 := s2 ++ d.autoIncrBindValue
          let plan := { plan with autoIncrIdx := (y : Int), autoIncrFieldName := col.fieldName }
          insColsLoop d version rest s s2 x false plan
        else
          if col.DefaultValue = "" then
            let s2 := s2 ++ d.bindVar x
            let plan :=
              if version = some y then
                { plan with versField := col.fieldName,
                            argFields := plan.argFields ++ [versFieldConst] }
              else
                { plan with argFields := plan.argFields ++ [col.fieldName] }
            insColsLoop d version rest s s2 (x + 1) false plan
          else
            let defaultVal :=
              match getValueAsType col.gotype col.DefaultValue with
              | Except.error _ => ""
              | Except.ok v => v
            let s2 := s2 ++ "case when " ++ d.bindVarWithType x col.gotype ++
              " is null or " ++ d.bindVarWithType (x + 1) col.gotype ++ " = " ++
              getZeroValueStringForSQL col.gotype ++ " then " ++ defaultVal ++
              " else " ++ d.bindVarWithType (x + 2) col.gotype ++ " end"
            let plan :=
              if version = some y then
                { plan with versField := col.fieldName,
                            argFields := plan.argFields ++
                              [versFieldConst, versFieldConst, versFieldConst] }
              else
                { plan with argFields := plan.argFields ++
                    [col.fieldName, col.fieldName, col.fieldName] }
            insColsLoop d version rest s s2 (x + 3) false plan
      else
        insColsLoop d version rest s s2 x first plan
    else
      let plan := { plan with autoIncrIdx := (y : Int), autoIncrFieldName := col.fieldName }
      insColsLoop d version rest s s2 x first plan

/-- The `once.Do` body of the current `bindInsert` (table_bindings.go lines
248-320). -/
def buildInsertPlan (d : Dialect) (t : TableMap) : bindPlan :=
  let plan := { t.insertPlan with autoIncrIdx := (-1 : Int) }
  let s := "insert into " ++ d.quotedTableForQuery t.SchemaName t.TableName ++ " ("
  let r := insColsLoop d t.version t.Columns.enum s "" 0 true plan
  let s := r.1 ++ ") values (" ++ r.2.1 ++ ")"
  let plan := r.2.2
  let s := if plan.autoIncrIdx > -1 then
      s ++ d.autoIncrInsertSuffix (t.Columns.getD plan.autoIncrIdx.toNat default)
    else s
  { plan with query := s ++ d.querySuffix, done := true }

/-- Model of `bindInsert`'s plan memoization (table_bindings.go lines 246-320): run
the build body at most once, then reuse the cached plan. -/
def TableMap.bindInsertPlan (d : Dialect) (t : TableMap) : bindPlan × TableMap :=
  if t.insertPlan.done then (t.insertPlan, t)
  else
    let plan := buildInsertPlan d t
    (plan, { t with insertPlan := plan })

/-- The SET-clause loop of the current `bindUpdate` (table_bindings.go lines
373-391): auto-increment and transient columns are skipped, as is any
column rejected by the filter. -/
def updColsLoop (d : Dialect) (version : Option Nat) (colFilter : ColumnFilter) :
    List (Nat × ColumnMap) → String → Nat → bindPlan → String × Nat × bindPlan
  | [], s, x, plan => (s, x, plan)
  | (y, col) :: rest, s, x, plan =>
    if ¬col.isAutoIncr ∧ ¬col.Transient ∧ colFilter col then
      let s := if x > 0 then s ++ ", " else s
      let s := s ++ d.quoteField col.ColumnName ++ "=" ++ d.bindVar x
      let plan :=
        if version = some y then
          { plan with versField := col.fieldName,
                      argFields := plan.argFields ++ [versFieldConst] }
        else
          { plan with argFields := plan.argFields ++ [col.fieldName] }
      updColsLoop d version colFilter rest s (x + 1) plan
    else
      updColsLoop d version colFilter rest s x plan

/-- The WHERE-clause key loop of the current `bindUpdate` (table_bindings.go
lines 394-406). -/
def updKeysLoop (d : Dialect) (cols : List ColumnMap) :
    List (Nat × Nat) → String → Nat → bindPlan → String × Nat × bindPlan
  | [], s, x, plan => (s, x, plan)
  | (y, k) :: rest, s, x, plan =>
    let col := cols.getD k default
    let s := if y > 0 then s ++ " and " else s
    let s := s ++ d.quoteField col.ColumnName ++ "=" ++ d.bindVar x
    let plan := { plan with argFields := plan.argFields ++ [col.fieldName],
                            keyFields := plan.keyFields ++ [col.fieldName] }
    updKeysLoop d cols rest s (x + 1) plan

/-- The `once.Do` body of the current `bindUpdate` (table_bindings.go lines
368-417). -/
def buildUpdatePlan (d : Dialect) (colFilter : ColumnFilter) (t : TableMap) : bindPlan :=
  let s := "update " ++ d.quotedTableForQuery t.SchemaName t.TableName ++ " set "
  let r := updColsLoop d t.version colFilter t.Columns.enum s 0 t.updatePlan
  let s := r.1 ++ " where "
  let r := updKeysLoop d t.Columns t.keys.enum s r.2.1 r.2.2
  let s := r.1
  let x := r.2.1
  let plan := r.2.2
  let s :=
    if plan.versField ≠ "" then
      s ++ " and " ++ d.quoteField (t.col (t.version.getD 0)).ColumnName ++ "=" ++ d.bindVar x
    else s
  let plan :=
    if plan.versField ≠ "" then { plan with argFields := plan.argFields ++ [plan.versField] }
    else plan
  { plan with query := s ++ d.querySuffix, done := true }

/-- Model of `bindUpdate`'s plan memoization (table_bindings.go lines 362-420): the
filter participates in the build body only; once built, every later call
(whatever its filter) reuses the cached plan. -/
def TableMap.bindUpdatePlan (d : Dialect) (colFilter : ColumnFilter) (t : TableMap) :
    bindPlan × TableMap :=
  if t.updatePlan.done then (t.updatePlan, t)
  else
    let plan := buildUpdatePlan d colFilter t
    (plan, { t with updatePlan := plan })

/-- The version-scanning loop of the current `bindDelete` (table_bindings.go
lines 428-435). -/
def delColsLoop (version : Option Nat) :
    List (Nat × ColumnMap) → bindPlan → bindPlan
  | [], plan => plan
  | (y, col) :: rest, plan =>
    let plan :=
      if ¬col.Transient ∧ version = some y then { plan with versField := col.fieldName }
      else plan
    delColsLoop version rest plan

/-- The WHERE-clause key loop of the current `bindDelete` (table_bindings.go
lines 438-449). -/
def delKeysLoop (d : Dialect) (cols : List ColumnMap) :
    List (Nat × Nat) → String → bindPlan → String × bindPlan
  | [], s, plan => (s, plan)
  | (x, k) :: rest, s, plan =>
    let col := cols.getD k default
    let s := if x > 0 then s ++ " and " else s
    let s := s ++ d.quoteField col.ColumnName ++ "=" ++ d.bindVar x
    let plan := { plan with keyFields := plan.keyFields ++ [col.fieldName],
                            argFields := plan.argFields ++ [col.fieldName] }
    delKeysLoop d cols rest s plan

/-- The `once.Do` body of the current `bindDelete` (table_bindings.go lines
424-461). -/
def buildDeletePlan (d : Dialect) (t : TableMap) : bindPlan :=
  let s := "delete from " ++ d.quotedTableForQuery t.SchemaName t.TableName
  let plan := delColsLoop t.version t.Columns.enum t.deletePlan
  let s := s ++ " where "
  let r := delKeysLoop d t.Columns t.keys.enum s plan
  let s := r.1
  let plan := r.2
  let s :=
    if plan.versField ≠ "" then
      s ++ " and " ++ d.quoteField (t.col (t.version.getD 0)).ColumnName ++ "=" ++
        d.bindVar plan.argFields.length
    else s
  let plan :=
    if plan.versField ≠ "" then { plan with argFields := plan.argFields ++ [plan.versField] }
    else plan
  { plan with query := s ++ d.querySuffix, done := true }

/-- Model of `bindDelete`'s plan memoization (table_bindings.go lines 422-464). -/
def TableMap.bindDeletePlan (d : Dialect) (t : TableMap) : bindPlan × TableMap :=
  if t.deletePlan.done then (t.deletePlan, t)
  else
    let plan := buildDeletePlan d t
    (plan, { t with deletePlan := plan })

/-- The SELECT column loop of the current `bindGet` (table_bindings.go lines
472-482). -/
def getColsLoop (d : Dialect) :
    List ColumnMap → String → Nat → bindPlan → String × bindPlan
  | [], s, _, plan => (s, plan)
  | col :: rest, s, x, plan =>
    if ¬col.Transient then
      let s := if x > 0 then s ++ "," else s
      let s := s ++ d.quoteField col.ColumnName
      let plan := { plan with argFields := plan.argFields ++ [col.fieldName] }
      getColsLoop d rest s (x + 1) plan
    else
      getColsLoop d rest s x plan

/-- The WHERE-clause key loop of the current `bindGet` (table_bindings.go
lines 486-496). -/
def getKeysLoop (d : Dialect) (cols : List ColumnMap) :
    List (Nat × Nat) → String → bindPlan → String × bindPlan
  | [], s, plan => (s, plan)
  | (x, k) :: rest, s, plan =>
    let col := cols.getD k default
    let s := if x > 0 then s ++ " and " else s
    let s := s ++ d.quoteField col.ColumnName ++ "=" ++ d.bindVar x
    let plan := { plan with keyFields := plan.keyFields ++ [col.fieldName] }
    getKeysLoop d cols rest s plan

/-- The `once.Do` body of the current `bindGet` (table_bindings.go lines
468-500). -/
def buildGetPlan (d : Dialect) (t : TableMap) : bindPlan :=
  let r := getColsLoop d t.Columns "select " 0 t.getPlan
  let s := r.1 ++ " from " ++ d.quotedTableForQuery t.SchemaName t.TableName ++ " where "
  let r := getKeysLoop d t.Columns t.keys.enum s r.2
  { r.2 with query := r.1 ++ d.querySuffix, done := true }

/-- Model of `bindGet`'s plan memoization (table_bindings.go lines 466-503). -/
def TableMap.bindGetPlan (d : Dialect) (t : TableMap) : bindPlan × TableMap :=
  if t.getPlan.done then (t.getPlan, t)
  else
    let plan := buildGetPlan d t
    (plan, { t with getPlan := plan })

end TB

/-! ## Concrete fixtures

A minimal MySQL-flavoured dialect and a registered `Invoice`-style table,
used to instantiate the theorems below at concrete inputs. -/

def stdDialect : Dialect where
  quoteField := fun f => "`" ++ f ++ "`"
  bindVar := fun _ => "?"
  autoIncrBindValue := "null"
  autoIncrInsertSuffix := fun _ => ""

def stdConf : DbConf := { dialect := stdDialect }

def invColumns : List ColumnMap :=
  [{ ColumnName := "Id", fieldName := "Id", isPK := true },
   { ColumnName := "Memo", fieldName := "Memo" },
   { ColumnName := "Version", fieldName := "Version" }]

def invoiceTable : TableMap :=
  { TableName := "invoice_test", columns := invColumns, keys := [0], version := some 2 }

def invElem (ver : Int) : Elem :=
  [("Id", GoValue.vint 5), ("Memo", GoValue.vstr "hi"), ("Version", GoValue.vint ver)]

/-- Driver fixture: every statement affects zero rows; the reload finds a
row (with a newer version). -/
def execZeroRowFound : Executor where
  execStmt := fun _ _ => ExecOutcome.rows 0
  queryRow := fun _ _ =>
    RowResult.row [GoValue.vint 5, GoValue.vstr "hi", GoValue.vint 9]

/-- Driver fixture: every statement affects zero rows; the reload finds
nothing. -/
def execZeroNoRow : Executor where
  execStmt := fun _ _ => ExecOutcome.rows 0
  queryRow := fun _ _ => RowResult.noRows

/-- Driver fixture: every statement affects one row. -/
def execOneRow : Executor where
  execStmt := fun _ _ => ExecOutcome.rows 1
  queryRow := fun _ _ => RowResult.noRows

/-- Driver fixture: row lookups fail with a driver error. -/
def execQueryErr : Executor where
  execStmt := fun _ _ => ExecOutcome.rows 0
  queryRow := fun _ _ => RowResult.rowErr (GErr.dbErr "boom")

def tbDialect : TB.Dialect where
  quoteField := fun f => "`" ++ f ++ "`"
  quotedTableForQuery := fun s n => if s.trim = "" then "`" ++ n ++ "`" else s ++ ".`" ++ n ++ "`"
  bindVar := fun _ => "?"
  bindVarWithType := fun _ _ => "?"
  autoIncrBindValue := "null"
  autoIncrInsertSuffix := fun _ => ""
  querySuffix := ";"

/-- Fixture: the invoice table after a `Get`, i.e. with a cached get
plan. -/
def cachedInvoiceTable : TableMap := (invoiceTable.bindGet stdDialect).2

def tbInvoiceTable : TB.TableMap where
  TableName := "invoice_test"
  Columns := [{ ColumnName := "Id", fieldName := "Id", isPK := true },
              { ColumnName := "Memo", fieldName := "Memo" },
              { ColumnName := "Version", fieldName := "Version" }]
  keys := [0]
  version := some 2

/-! ## Derived descriptions of the built plans -/

/-- The struct field names of a table's key columns, in `SetKeys` order:
these are both the trailing `argFields` and the `keyFields` of the update,
delete and get plans. -/
def keyNames (t : TableMap) : List String :=
  t.keys.map (fun k => (t.col k).fieldName)

/-- The `argFields` contributed by the SET clause of the update plan: the
non-key, non-transient columns in declaration order, with the version
column replaced by the `versFieldConst` sentinel. -/
def updSetFields (t : TableMap) : List String :=
  (t.columns.enum.filter (fun q => !q.2.isPK && !q.2.Transient)).map
    (fun q => if t.version = some q.1 then versFieldConst else q.2.fieldName)

/-- The `argFields` of the insert plan: the non-transient, non-auto-increment
columns in declaration order, with the version column replaced by the
`versFieldConst` sentinel. -/
def insFields (t : TableMap) : List String :=
  (t.columns.enum.filter (fun q => !q.2.Transient && !q.2.isAutoIncr)).map
    (fun q => if t.version = some q.1 then versFieldConst else q.2.fieldName)

/-! ## Supporting lemmas for the memoized builders -/

theorem TB.buildInsertPlan_done (d : TB.Dialect) (t : TB.TableMap) :
    (TB.buildInsertPlan d t).done = true := rfl

theorem TB.buildUpdatePlan_done (d : TB.Dialect) (f : TB.ColumnFilter) (t : TB.TableMap) :
    (TB.buildUpdatePlan d f t).done = true := rfl

theorem TB.buildDeletePlan_done (d : TB.Dialect) (t : TB.TableMap) :
    (TB.buildDeletePlan d t).done = true := rfl

theorem TB.buildGetPlan_done (d : TB.Dialect) (t : TB.TableMap) :
    (TB.buildGetPlan d t).done = true := rfl

/-! ## Supporting lemmas for bind instances -/

theorem Elem.fieldByName_setInt (e : Elem) (f : String) (i : Int) :
    (e.setInt f i).fieldByName f = GoValue.vint i := by
  induction e with
  | nil => simp [Elem.setInt, Elem.fieldByName, List.find?_cons]
  | cons p rest ih =>
    rw [Elem.setInt]
    by_cases hp : p.1 = f
    · rw [if_pos hp]
      simp [Elem.fieldByName, List.find?_cons]
    · rw [if_neg hp]
      have hd : decide (p.1 = f) = false := decide_eq_false hp
      rw [Elem.fieldByName] at ih ⊢
      rw [List.find?_cons, hd]
      exact ih

/-- With no TypeConverter and a nonzero existing version, the argument loop
of `createBindInstance` succeeds, binds the virtual next version at every
`versFieldConst` position, the field value elsewhere, and leaves the struct
unchanged. -/
theorem bindArgsLoop_none_ne_zero (vf : String) (ev : Int) (h0 : ¬ev = 0)
    (ks : List String) : ∀ (acc : List GoValue) (elem : Elem),
    bindArgsLoop none vf ev ks acc elem =
      Except.ok (acc ++ ks.map (fun k =>
        if k = versFieldConst then GoValue.vint (ev + 1) else elem.fieldByName k), elem) := by
  induction ks with
  | nil => intro acc elem; simp [bindArgsLoop]
  | cons k rest ih =>
    intro acc elem
    by_cases hk : k = versFieldConst
    · subst hk
      simp [bindArgsLoop, h0, ih]
    · simp [bindArgsLoop, hk, ih]

theorem bindArgsLoop_none_ok (vf : String) (ev : Int) (ks : List String) :
    ∀ (acc : List GoValue) (elem : Elem), ∃ args elem',
    bindArgsLoop none vf ev ks acc elem = Except.ok (args, elem') := by
  induction ks with
  | nil => intro acc elem; exact ⟨acc, elem, rfl⟩
  | cons k rest ih =>
    intro acc elem
    by_cases hk : k = versFieldConst
    · subst hk
      obtain ⟨args, elem', h⟩ := ih (acc ++ [GoValue.vint (ev + 1)])
        (if ev = 0 then elem.setInt vf (ev + 1) else elem)
      refine ⟨args, elem', ?_⟩
      simp only [bindArgsLoop, if_pos rfl]
      exact h
    · obtain ⟨args, elem', h⟩ := ih (acc ++ [elem.fieldByName k]) elem
      refine ⟨args, elem', ?_⟩
      simp only [bindArgsLoop, if_neg hk]
      exact h

theorem bindArgsLoop_none_prefix (vf : String) (ev : Int) (ks : List String) :
    ∀ (acc : List GoValue) (elem : Elem) (args : List GoValue) (elem' : Elem),
    bindArgsLoop none vf ev ks acc elem = Except.ok (args, elem') → acc <+: args := by
  induction ks with
  | nil =>
    intro acc elem args elem' h
    rw [bindArgsLoop] at h
    simp only [Except.ok.injEq, Prod.mk.injEq] at h
    exact h.1 ▸ List.prefix_refl acc
  | cons k rest ih =>
    intro acc elem args elem' h
    simp only [bindArgsLoop] at h
    by_cases hk : k = versFieldConst
    · rw [if_pos hk] at h
      exact (List.prefix_append acc _).trans (ih _ _ args elem' h)
    · rw [if_neg hk] at h
      exact (List.prefix_append acc _).trans (ih _ _ args elem' h)

theorem bindArgsLoop_none_vers_pointwise (vf : String) (ev : Int) (ks : List String) :
    ∀ (acc : List GoValue) (elem : Elem) (args : List GoValue) (elem' : Elem),
    bindArgsLoop none vf ev ks acc elem = Except.ok (args, elem') →
    ∀ j, ks.get? j = some versFieldConst →
      args.get? (acc.length + j) = some (GoValue.vint (ev + 1)) := by
  induction ks with
  | nil => intro acc elem args elem' h j hj; simp at hj
  | cons k rest ih =>
    intro acc elem args elem' h j hj
    simp only [bindArgsLoop] at h
    by_cases hk : k = versFieldConst
    · rw [if_pos hk] at h
      cases j with
      | zero =>
        obtain ⟨tl, htl⟩ := bindArgsLoop_none_prefix vf ev rest _ _ args elem' h
        rw [← htl, Nat.add_zero, List.append_assoc,
          List.get?_append_right (Nat.le_refl acc.length), Nat.sub_self]
        rfl
      | succ j' =>
        have hj' : rest.get? j' = some versFieldConst := by
          rw [List.get?_cons_succ] at hj; exact hj
        have h2 := ih _ _ args elem' h j' hj'
        have harith : (acc ++ [GoValue.vint (ev + 1)]).length + j' = acc.length + (j' + 1) := by
          rw [List.length_append, List.length_singleton]
          omega
        rwa [harith] at h2
    · rw [if_neg hk] at h
      cases j with
      | zero =>
        simp only [List.get?_cons_zero, Option.some.injEq] at hj
        exact absurd hj hk
      | succ j' =>
        have hj' : rest.get? j' = some versFieldConst := by
          rw [List.get?_cons_succ] at hj; exact hj
        have h2 := ih _ _ args elem' h j' hj'
        have harith : (acc ++ [elem.fieldByName k]).length + j' = acc.length + (j' + 1) := by
          rw [List.length_append, List.length_singleton]
          omega
        rwa [harith] at h2

theorem bindArgsLoop_none_preserve (vf : String) (ev : Int) (ks : List String) :
    ∀ (acc : List GoValue) (elem : Elem) (args : List GoValue) (elem' : Elem),
    bindArgsLoop none vf ev ks acc elem = Except.ok (args, elem') →
    elem.fieldByName vf = GoValue.vint (ev + 1) →
    elem'.fieldByName vf = GoValue.vint (ev + 1) := by
  induction ks with
  | nil =>
    intro acc elem args elem' h hf
    rw [bindArgsLoop] at h
    simp only [Except.ok.injEq, Prod.mk.injEq] at h
    exact h.2 ▸ hf
  | cons k rest ih =>
    intro acc elem args elem' h hf
    simp only [bindArgsLoop] at h
    by_cases hk : k = versFieldConst
    · rw [if_pos hk] at h
      by_cases h0 : ev = 0
      · rw [if_pos h0] at h
        subst h0
        exact ih _ _ args elem' h (Elem.fieldByName_setInt _ _ _)
      · rw [if_neg h0] at h
        exact ih _ _ args elem' h hf
    · rw [if_neg hk] at h
      exact ih _ _ args elem' h hf

/-- With no TypeConverter, a zero existing version, and a version sentinel
among the remaining argument fields, the loop writes the computed next
version back into the struct. -/
theorem bindArgsLoop_none_writeback (vf : String) (ks : List String) :
    ∀ (acc : List GoValue) (elem : Elem) (args : List GoValue) (elem' : Elem),
    bindArgsLoop none vf 0 ks acc elem = Except.ok (args, elem') →
    versFieldConst ∈ ks →
    elem'.fieldByName vf = GoValue.vint 1 := by
  induction ks with
  | nil => intro acc elem args elem' h hm; simp at hm
  | cons k rest ih =>
    intro acc elem args elem' h hm
    simp only [bindArgsLoop] at h
    by_cases hk : k = versFieldConst
    · rw [if_pos hk] at h
      simp only [if_true] at h
      have := bindArgsLoop_none_preserve vf 0 rest _ _ args elem' h
        (Elem.fieldByName_setInt _ _ _)
      simpa using this
    · rw [if_neg hk] at h
      rcases List.mem_cons.1 hm with rfl | hm'
      · exact absurd rfl hk
      · exact ih _ _ args elem' h hm'

theorem bindKeysLoop_none (elem : Elem) (ks : List String) :
    ∀ acc : List GoValue,
    bindKeysLoop none elem ks acc =
      Except.ok (acc ++ ks.map (fun k => elem.fieldByName k)) := by
  induction ks with
  | nil => intro acc; simp [bindKeysLoop]
  | cons k rest ih =>
    intro acc
    simp [bindKeysLoop, ih]

/-- With no TypeConverter and a configured version field holding a nonzero
value, `createBindInstance` succeeds with the closed-form bind instance and
an unchanged struct. -/
theorem createBindInstance_none_ne_zero (plan : bindPlan) (elem : Elem) (ev : Int)
    (hvf : plan.versField ≠ "") (hev : elem.getInt plan.versField = ev) (h0 : ¬ev = 0) :
    plan.createBindInstance elem none = Except.ok
      ({ query := plan.query,
         args := plan.argFields.map (fun k =>
           if k = versFieldConst then GoValue.vint (ev + 1) else elem.fieldByName k),
         keys := plan.keyFields.map (fun k => elem.fieldByName k),
         existingVersion := ev, versField := plan.versField,
         autoIncrIdx := plan.autoIncrIdx,
         autoIncrFieldName := plan.autoIncrFieldName }, elem) := by
  simp only [bindPlan.createBindInstance, if_pos hvf, hev]
  rw [bindArgsLoop_none_ne_zero plan.versField ev h0 plan.argFields [] elem]
  simp [bindKeysLoop_none]

/-- With no TypeConverter, `createBindInstance` always succeeds, and the
instance carries the plan's query, version field and computed existing
version. -/
theorem createBindInstance_none_ok (plan : bindPlan) (elem : Elem) :
    ∃ args elem',
    plan.createBindInstance elem none = Except.ok
      ({ query := plan.query, args := args,
         keys := plan.keyFields.map (fun k => elem'.fieldByName k),
         existingVersion :=
           (if plan.versField ≠ "" then elem.getInt plan.versField else 0),
         versField := plan.versField, autoIncrIdx := plan.autoIncrIdx,
         autoIncrFieldName := plan.autoIncrFieldName }, elem') := by
  obtain ⟨args, elem', h⟩ := bindArgsLoop_none_ok plan.versField
    (if plan.versField ≠ "" then elem.getInt plan.versField else 0) plan.argFields [] elem
  refine ⟨args, elem', ?_⟩
  simp only [bindPlan.createBindInstance]
  rw [h]
  simp [bindKeysLoop_none]

/-! ## Characterization of the built plans -/

theorem getColsLoop_argFields (d : Dialect) (l : List ColumnMap) :
    ∀ (s : String) (x : Nat) (p : bindPlan),
    (getColsLoop d l s x p).2.argFields =
      p.argFields ++ (l.filter (fun c => !c.Transient)).map (fun c => c.fieldName) := by
  induction l with
  | nil => intro s x p; simp [getColsLoop]
  | cons c rest ih =>
    intro s x p
    rcases Bool.eq_false_or_eq_true c.Transient with hct | hct <;>
      simp [getColsLoop, hct, ih, List.filter_cons]

theorem getColsLoop_keyFields (d : Dialect) (l : List ColumnMap) :
    ∀ (s : String) (x : Nat) (p : bindPlan),
    (getColsLoop d l s x p).2.keyFields = p.keyFields := by
  induction l with
  | nil => intro s x p; simp [getColsLoop]
  | cons c rest ih =>
    intro s x p
    rcases Bool.eq_false_or_eq_true c.Transient with hct | hct <;>
      simp [getColsLoop, hct, ih]

theorem getKeysLoop_keyFields (d : Dialect) (cols : List ColumnMap) (l : List (Nat × Nat)) :
    ∀ (s : String) (p : bindPlan),
    (getKeysLoop d cols l s p).2.keyFields =
      p.keyFields ++ l.map (fun q => (cols.getD q.2 default).fieldName) := by
  induction l with
  | nil => intro s p; simp [getKeysLoop]
  | cons q rest ih =>
    obtain ⟨x, k⟩ := q
    intro s p
    simp [getKeysLoop, ih]

theorem getKeysLoop_argFields (d : Dialect) (cols : List ColumnMap) (l : List (Nat × Nat)) :
    ∀ (s : String) (p : bindPlan),
    (getKeysLoop d cols l s p).2.argFields = p.argFields := by
  induction l with
  | nil => intro s p; simp [getKeysLoop]
  | cons q rest ih =>
    obtain ⟨x, k⟩ := q
    intro s p
    simp [getKeysLoop, ih]

theorem buildGetPlan_argFields (d : Dialect) (t : TableMap) :
    (buildGetPlan d t).argFields =
      t.getPlan.argFields ++
        (t.columns.filter (fun c => !c.Transient)).map (fun c => c.fieldName) := by
  simp [buildGetPlan, getKeysLoop_argFields, getColsLoop_argFields]

theorem updColsLoop_argFields (d : Dialect) (l : List (Nat × ColumnMap)) :
    ∀ (version : Option Nat) (s : String) (x : Nat) (p : bindPlan),
    (updColsLoop d version l s x p).2.2.argFields =
      p.argFields ++ (l.filter (fun q => !q.2.isPK && !q.2.Transient)).map
        (fun q => if version = some q.1 then versFieldConst else q.2.fieldName) := by
  induction l with
  | nil => intro version s x p; simp [updColsLoop]
  | cons q rest ih =>
    obtain ⟨y, col⟩ := q
    intro version s x p
    by_cases hsel : (!col.isPK && !col.Transient) = true
    · by_cases hv : version = some y <;>
        simp [updColsLoop, hsel, hv, ih, List.filter_cons]
    · simp [updColsLoop, hsel, ih, List.filter_cons]

theorem updColsLoop_keyFields (d : Dialect) (l : List (Nat × ColumnMap)) :
    ∀ (version : Option Nat) (s : String) (x : Nat) (p : bindPlan),
    (updColsLoop d version l s x p).2.2.keyFields = p.keyFields := by
  induction l with
  | nil => intro version s x p; simp [updColsLoop]
  | cons q rest ih =>
    obtain ⟨y, col⟩ := q
    intro version s x p
    by_cases hsel : (!col.isPK && !col.Transient) = true
    · by_cases hv : version = some y <;> simp [updColsLoop, hsel, hv, ih]
    · simp [updColsLoop, hsel, ih]

theorem updColsLoop_versField_of_no_match (d : Dialect) (version : Option Nat)
    (l : List (Nat × ColumnMap)) :
    ∀ (s : String) (x : Nat) (p : bindPlan),
    (∀ q ∈ l, (!q.2.isPK && !q.2.Transient) = true → version ≠ some q.1) →
    (updColsLoop d version l s x p).2.2.versField = p.versField := by
  induction l with
  | nil => intro s x p _; simp [updColsLoop]
  | cons q rest ih =>
    obtain ⟨y, col⟩ := q
    intro s x p hno
    have htail : ∀ q ∈ rest, (!q.2.isPK && !q.2.Transient) = true → version ≠ some q.1 :=
      fun q hq => hno q (List.mem_cons_of_mem _ hq)
    have hstep : ∀ (s' : String) (x' : Nat) (p' : bindPlan),
        (updColsLoop d version rest s' x' p').2.2.versField = p'.versField :=
      fun s' x' p' => ih s' x' p' htail
    by_cases hsel : (!col.isPK && !col.Transient) = true
    · have hv : ¬version = some y := hno (y, col) (List.mem_cons_self _ _) hsel
      simp [updColsLoop, hsel, hv, hstep]
    · simp [updColsLoop, hsel, hstep]

theorem updColsLoop_versField_eq (d : Dialect) (version : Option Nat)
    (i : Nat) (vcol : ColumnMap)
    (hsel : (!vcol.isPK && !vcol.Transient) = true) (hv : version = some i) :
    ∀ (l : List (Nat × ColumnMap)), (l.map Prod.fst).Nodup → (i, vcol) ∈ l →
    ∀ (s : String) (x : Nat) (p : bindPlan),
    (updColsLoop d version l s x p).2.2.versField = vcol.fieldName := by
  intro l
  induction l with
  | nil => intro _ hmem s x p; simp at hmem
  | cons q rest ih =>
    obtain ⟨y, col⟩ := q
    intro hnd hmem s x p
    rw [List.map_cons] at hnd
    have hndrest : (rest.map Prod.fst).Nodup := hnd.of_cons
    have hynotin : y ∉ rest.map Prod.fst := hnd.not_mem
    rcases List.mem_cons.1 hmem with heq | hmem2
    · injection heq with hy hcol
      subst hy
      subst hcol
      have hnomatch : ∀ q ∈ rest, (!q.2.isPK && !q.2.Transient) = true →
          (some i : Option Nat) ≠ some q.1 := by
        intro q hq _ hveq
        have hqi : i = q.1 := Option.some.inj hveq
        exact hynotin (hqi ▸ List.mem_map_of_mem Prod.fst hq)
      have hstep : ∀ (s' : String) (x' : Nat) (p' : bindPlan),
          (updColsLoop d (some i) rest s' x' p').2.2.versField = p'.versField :=
        fun s' x' p' =>
          updColsLoop_versField_of_no_match d (some i) rest s' x' p' hnomatch
      simp [updColsLoop, hsel, hv, hstep]
    · have hyne : ¬version = some y := by
        rw [hv]
        intro hc
        have hy : i = y := Option.some.inj hc
        exact hynotin (hy ▸ List.mem_map_of_mem Prod.fst hmem2)
      by_cases hselh : (!col.isPK && !col.Transient) = true
      · simp [updColsLoop, hselh, hyne, ih hndrest hmem2]
      · simp [updColsLoop, hselh, ih hndrest hmem2]

theorem updKeysLoop_argFields (d : Dialect) (cols : List ColumnMap)
    (l : List (Nat × Nat)) :
    ∀ (s : String) (x : Nat) (p : bindPlan),
    (updKeysLoop d cols l s x p).2.2.argFields =
      p.argFields ++ l.map (fun q => (cols.getD q.2 default).fieldName) := by
  induction l with
  | nil => intro s x p; simp [updKeysLoop]
  | cons q rest ih =>
    obtain ⟨y, k⟩ := q
    intro s x p
    simp [updKeysLoop, ih]

theorem updKeysLoop_keyFields (d : Dialect) (cols : List ColumnMap)
    (l : List (Nat × Nat)) :
    ∀ (s : String) (x : Nat) (p : bindPlan),
    (updKeysLoop d cols l s x p).2.2.keyFields =
      p.keyFields ++ l.map (fun q => (cols.getD q.2 default).fieldName) := by
  induction l with
  | nil => intro s x p; simp [updKeysLoop]
  | cons q rest ih =>
    obtain ⟨y, k⟩ := q
    intro s x p
    simp [updKeysLoop, ih]

theorem updKeysLoop_versField (d : Dialect) (cols : List ColumnMap)
    (l : List (Nat × Nat)) :
    ∀ (s : String) (x : Nat) (p : bindPlan),
    (updKeysLoop d cols l s x p).2.2.versField = p.versField := by
  induction l with
  | nil => intro s x p; simp [updKeysLoop]
  | cons q rest ih =>
    obtain ⟨y, k⟩ := q
    intro s x p
    simp [updKeysLoop, ih]

theorem insColsLoop_argFields (d : Dialect) (l : List (Nat × ColumnMap)) :
    ∀ (version : Option Nat) (s s2 : String) (x : Nat) (first : Bool) (p : bindPlan),
    (insColsLoop d version l s s2 x first p).2.2.argFields =
      p.argFields ++ (l.filter (fun q => !q.2.Transient && !q.2.isAutoIncr)).map
        (fun q => if version = some q.1 then versFieldConst else q.2.fieldName) := by
  induction l with
  | nil => intro version s s2 x first p; simp [insColsLoop]
  | cons q rest ih =>
    obtain ⟨y, col⟩ := q
    intro version s s2 x first p
    rcases Bool.eq_false_or_eq_true col.Transient with hct | hct
    · simp [insColsLoop, hct, ih, List.filter_cons]
    · rcases Bool.eq_false_or_eq_true col.isAutoIncr with hai | hai
      · simp [insColsLoop, hct, hai, ih, List.filter_cons]
      · by_cases hv : version = some y <;>
          simp [insColsLoop, hct, hai, hv, ih, List.filter_cons]

theorem insColsLoop_keyFields (d : Dialect) (l : List (Nat × ColumnMap)) :
    ∀ (version : Option Nat) (s s2 : String) (x : Nat) (first : Bool) (p : bindPlan),
    (insColsLoop d version l s s2 x first p).2.2.keyFields = p.keyFields := by
  induction l with
  | nil => intro version s s2 x first p; simp [insColsLoop]
  | cons q rest ih =>
    obtain ⟨y, col⟩ := q
    intro version s s2 x first p
    rcases Bool.eq_false_or_eq_true col.Transient with hct | hct
    · simp [insColsLoop, hct, ih]
    · rcases Bool.eq_false_or_eq_true col.isAutoIncr with hai | hai
      · simp [insColsLoop, hct, hai, ih]
      · by_cases hv : version = some y <;> simp [insColsLoop, hct, hai, hv, ih]

theorem insColsLoop_versField_of_no_match (d : Dialect) (version : Option Nat)
    (l : List (Nat × ColumnMap)) :
    ∀ (s s2 : String) (x : Nat) (first : Bool) (p : bindPlan),
    (∀ q ∈ l, (!q.2.Transient && !q.2.isAutoIncr) = true → version ≠ some q.1) →
    (insColsLoop d version l s s2 x first p).2.2.versField = p.versField := by
  induction l with
  | nil => intro s s2 x first p _; simp [insColsLoop]
  | cons q rest ih =>
    obtain ⟨y, col⟩ := q
    intro s s2 x first p hno
    have htail : ∀ q ∈ rest, (!q.2.Transient && !q.2.isAutoIncr) = true →
        version ≠ some q.1 :=
      fun q hq => hno q (List.mem_cons_of_mem _ hq)
    have hstep : ∀ (s' s2' : String) (x' : Nat) (first' : Bool) (p' : bindPlan),
        (insColsLoop d version rest s' s2' x' first' p').2.2.versField = p'.versField :=
      fun s' s2' x' first' p' => ih s' s2' x' first' p' htail
    rcases Bool.eq_false_or_eq_true col.Transient with hct | hct
    · simp [insColsLoop, hct, hstep]
    · rcases Bool.eq_false_or_eq_true col.isAutoIncr with hai | hai
      · simp [insColsLoop, hct, hai, hstep]
      · have hv : ¬version = some y :=
          hno (y, col) (List.mem_cons_self _ _) (by simp [hct, hai])
        simp [insColsLoop, hct, hai, hv, hstep]

theorem insColsLoop_versField_eq (d : Dialect) (version : Option Nat)
    (i : Nat) (vcol : ColumnMap)
    (htr : vcol.Transient = false) (hai : vcol.isAutoIncr = false)
    (hv : version = some i) :
    ∀ (l : List (Nat × ColumnMap)), (l.map Prod.fst).Nodup → (i, vcol) ∈ l →
    ∀ (s s2 : String) (x : Nat) (first : Bool) (p : bindPlan),
    (insColsLoop d version l s s2 x first p).2.2.versField = vcol.fieldName := by
  intro l
  induction l with
  | nil => intro _ hmem s s2 x first p; simp at hmem
  | cons q rest ih =>
    obtain ⟨y, col⟩ := q
    intro hnd hmem s s2 x first p
    rw [List.map_cons] at hnd
    have hndrest : (rest.map Prod.fst).Nodup := hnd.of_cons
    have hynotin : y ∉ rest.map Prod.fst := hnd.not_mem
    rcases List.mem_cons.1 hmem with heq | hmem2
    · injection heq with hy hcol
      subst hy
      subst hcol
      have hnomatch : ∀ q ∈ rest, (!q.2.Transient && !q.2.isAutoIncr) = true →
          (some i : Option Nat) ≠ some q.1 := by
        intro q hq _ hveq
        have hqi : i = q.1 := Option.some.inj hveq
        exact hynotin (hqi ▸ List.mem_map_of_mem Prod.fst hq)
      have hstep : ∀ (s' s2' : String) (x' : Nat) (first' : Bool) (p' : bindPlan),
          (insColsLoop d (some i) rest s' s2' x' first' p').2.2.versField =
            p'.versField :=
        fun s' s2' x' first' p' =>
          insColsLoop_versField_of_no_match d (some i) rest s' s2' x' first' p' hnomatch
      simp [insColsLoop, htr, hai, hv, hstep]
    · have hyne : ¬version = some y := by
        rw [hv]
        intro hc
        have hy : i = y := Option.some.inj hc
        exact hynotin (hy ▸ List.mem_map_of_mem Prod.fst hmem2)
      rcases Bool.eq_false_or_eq_true col.Transient with hct | hct
      · simp [insColsLoop, hct, ih hndrest hmem2]
      · rcases Bool.eq_false_or_eq_true col.isAutoIncr with hai2 | hai2
        · simp [insColsLoop, hct, hai2, ih hndrest hmem2]
        · simp [insColsLoop, hct, hai2, hyne, ih hndrest hmem2]

theorem delColsLoop_argFields (l : List (Nat × ColumnMap)) :
    ∀ (version : Option Nat) (p : bindPlan),
    (delColsLoop version l p).argFields = p.argFields := by
  induction l with
  | nil => intro version p; simp [delColsLoop]
  | cons q rest ih =>
    obtain ⟨y, col⟩ := q
    intro version p
    rcases Bool.eq_false_or_eq_true col.Transient with hct | hct
    · simp [delColsLoop, hct, ih]
    · by_cases hv : version = some y <;> simp [delColsLoop, hct, hv, ih]

theorem delColsLoop_keyFields (l : List (Nat × ColumnMap)) :
    ∀ (version : Option Nat) (p : bindPlan),
    (delColsLoop version l p).keyFields = p.keyFields := by
  induction l with
  | nil => intro version p; simp [delColsLoop]
  | cons q rest ih =>
    obtain ⟨y, col⟩ := q
    intro version p
    rcases Bool.eq_false_or_eq_true col.Transient with hct | hct
    · simp [delColsLoop, hct, ih]
    · by_cases hv : version = some y <;> simp [delColsLoop, hct, hv, ih]

theorem delColsLoop_versField_of_no_match (version : Option Nat)
    (l : List (Nat × ColumnMap)) :
    ∀ p : bindPlan,
    (∀ q ∈ l, (!q.2.Transient) = true → version ≠ some q.1) →
    (delColsLoop version l p).versField = p.versField := by
  induction l with
  | nil => intro p _; simp [delColsLoop]
  | cons q rest ih =>
    obtain ⟨y, col⟩ := q
    intro p hno
    have htail : ∀ q ∈ rest, (!q.2.Transient) = true → version ≠ some q.1 :=
      fun q hq => hno q (List.mem_cons_of_mem _ hq)
    have hstep : ∀ p' : bindPlan, (delColsLoop version rest p').versField = p'.versField :=
      fun p' => ih p' htail
    rcases Bool.eq_false_or_eq_true col.Transient with hct | hct
    · simp [delColsLoop, hct, hstep]
    · have hv : ¬version = some y :=
        hno (y, col) (List.mem_cons_self _ _) (by simp [hct])
      simp [delColsLoop, hct, hv, hstep]

theorem delColsLoop_versField_eq (version : Option Nat) (i : Nat) (vcol : ColumnMap)
    (htr : vcol.Transient = false) (hv : version = some i) :
    ∀ (l : List (Nat × ColumnMap)), (l.map Prod.fst).Nodup → (i, vcol) ∈ l →
    ∀ p : bindPlan, (delColsLoop version l p).versField = vcol.fieldName := by
  intro l
  induction l with
  | nil => intro _ hmem p; simp at hmem
  | cons q rest ih =>
    obtain ⟨y, col⟩ := q
    intro hnd hmem p
    rw [List.map_cons] at hnd
    have hndrest : (rest.map Prod.fst).Nodup := hnd.of_cons
    have hynotin : y ∉ rest.map Prod.fst := hnd.not_mem
    rcases List.mem_cons.1 hmem with heq | hmem2
    · injection heq with hy hcol
      subst hy
      subst hcol
      have hnomatch : ∀ q ∈ rest, (!q.2.Transient) = true →
          (some i : Option Nat) ≠ some q.1 := by
        intro q hq _ hveq
        have hqi : i = q.1 := Option.some.inj hveq
        exact hynotin (hqi ▸ List.mem_map_of_mem Prod.fst hq)
      have hstep : ∀ p' : bindPlan,
          (delColsLoop (some i) rest p').versField = p'.versField :=
        fun p' => delColsLoop_versField_of_no_match (some i) rest p' hnomatch
      simp [delColsLoop, htr, hv, hstep]
    · have hyne : ¬version = some y := by
        rw [hv]
        intro hc
        have hy : i = y := Option.some.inj hc
        exact hynotin (hy ▸ List.mem_map_of_mem Prod.fst hmem2)
      rcases Bool.eq_false_or_eq_true col.Transient with hct | hct
      · simp [delColsLoop, hct, ih hndrest hmem2]
      · simp [delColsLoop, hct, hyne, ih hndrest hmem2]

theorem delKeysLoop_argFields (d : Dialect) (cols : List ColumnMap)
    (l : List (Nat × Nat)) :
    ∀ (s : String) (p : bindPlan),
    (delKeysLoop d cols l s p).2.argFields =
      p.argFields ++ l.map (fun q => (cols.getD q.2 default).fieldName) := by
  induction l with
  | nil => intro s p; simp [delKeysLoop]
  | cons q rest ih =>
    obtain ⟨x, k⟩ := q
    intro s p
    simp [delKeysLoop, ih]

theorem delKeysLoop_keyFields (d : Dialect) (cols : List ColumnMap)
    (l : List (Nat × Nat)) :
    ∀ (s : String) (p : bindPlan),
    (delKeysLoop d cols l s p).2.keyFields =
      p.keyFields ++ l.map (fun q => (cols.getD q.2 default).fieldName) := by
  induction l with
  | nil => intro s p; simp [delKeysLoop]
  | cons q rest ih =>
    obtain ⟨x, k⟩ := q
    intro s p
    simp [delKeysLoop, ih]

theorem delKeysLoop_versField (d : Dialect) (cols : List ColumnMap)
    (l : List (Nat × Nat)) :
    ∀ (s : String) (p : bindPlan),
    (delKeysLoop d cols l s p).2.versField = p.versField := by
  induction l with
  | nil => intro s p; simp [delKeysLoop]
  | cons q rest ih =>
    obtain ⟨x, k⟩ := q
    intro s p
    simp [delKeysLoop, ih]

theorem enum_mem_of_get? (l : List ColumnMap) (i : Nat) (c : ColumnMap)
    (h : l.get? i = some c) : (i, c) ∈ l.enum := by
  rw [List.mk_mem_enum_iff_getElem?, ← List.get?_eq_getElem?]
  exact h

theorem enum_map_snd_comp (l : List Nat) (g : Nat → String) :
    l.enum.map (fun q => g q.2) = l.map g := by
  rw [show (fun q : Nat × Nat => g q.2) = g ∘ Prod.snd from rfl, ← List.map_map,
    List.enum_map_snd]

theorem enum_map_keyNames (cols : List ColumnMap) (l : List Nat) :
    l.enum.map (fun q : Nat × Nat => (cols.getD q.2 default).fieldName) =
      l.map (fun k => (cols.getD k default).fieldName) :=
  enum_map_snd_comp l (fun k => (cols.getD k default).fieldName)

/-- The update plan built for a fresh table whose version column is a
non-key, non-transient column: the trailing version clause is present, the
key fields are the `SetKeys` fields, and the arguments are the SET fields,
then the keys, then the stale version. -/
theorem buildUpdatePlan_spec (d : Dialect) (t : TableMap) (i : Nat) (vcol : ColumnMap)
    (hfresh : t.updatePlan = {}) (hv : t.version = some i)
    (hcol : t.columns.get? i = some vcol)
    (hpk : vcol.isPK = false) (htr : vcol.Transient = false)
    (hfn : vcol.fieldName ≠ "") :
    (buildUpdatePlan d t).versField = vcol.fieldName ∧
    (buildUpdatePlan d t).keyFields = keyNames t ∧
    (buildUpdatePlan d t).argFields = updSetFields t ++ keyNames t ++ [vcol.fieldName] := by
  have hsel : (!vcol.isPK && !vcol.Transient) = true := by simp [hpk, htr]
  have hmem := enum_mem_of_get? t.columns i vcol hcol
  have hnd := List.nodup_enum_map_fst t.columns
  have hvf := updColsLoop_versField_eq d t.version i vcol hsel hv t.columns.enum hnd hmem
  refine ⟨?_, ?_, ?_⟩
  · simp [buildUpdatePlan, updKeysLoop_versField, hvf, hfn]
  · simp [buildUpdatePlan, updKeysLoop_versField, hvf, hfn, updKeysLoop_keyFields,
      updColsLoop_keyFields, hfresh, keyNames, TableMap.col, enum_map_keyNames]
    simpa using enum_map_keyNames t.columns t.keys
  · simp [buildUpdatePlan, updKeysLoop_versField, hvf, hfn, updKeysLoop_argFields,
      updColsLoop_argFields, hfresh, updSetFields, keyNames, TableMap.col,
      enum_map_keyNames]
    simpa using enum_map_keyNames t.columns t.keys

/-- The delete plan built for a fresh table whose version column is
non-transient: key fields, then the trailing stale-version argument. -/
theorem buildDeletePlan_spec (d : Dialect) (t : TableMap) (i : Nat) (vcol : ColumnMap)
    (hfresh : t.deletePlan = {}) (hv : t.version = some i)
    (hcol : t.columns.get? i = some vcol)
    (htr : vcol.Transient = false) (hfn : vcol.fieldName ≠ "") :
    (buildDeletePlan d t).versField = vcol.fieldName ∧
    (buildDeletePlan d t).keyFields = keyNames t ∧
    (buildDeletePlan d t).argFields = keyNames t ++ [vcol.fieldName] := by
  have hmem := enum_mem_of_get? t.columns i vcol hcol
  have hnd := List.nodup_enum_map_fst t.columns
  have hvf := delColsLoop_versField_eq t.version i vcol htr hv t.columns.enum hnd hmem
  refine ⟨?_, ?_, ?_⟩
  · simp [buildDeletePlan, delKeysLoop_versField, hvf, hfn]
  · simp [buildDeletePlan, delKeysLoop_versField, hvf, hfn, delKeysLoop_keyFields,
      delColsLoop_keyFields, hfresh, keyNames, TableMap.col, enum_map_keyNames]
    simpa using enum_map_keyNames t.columns t.keys
  · simp [buildDeletePlan, delKeysLoop_versField, hvf, hfn, delKeysLoop_argFields,
      delColsLoop_argFields, hfresh, keyNames, TableMap.col, enum_map_keyNames]
    simpa using enum_map_keyNames t.columns t.keys

/-- The insert plan built for a fresh table whose version column is
non-transient and not auto-increment. -/
theorem buildInsertPlan_spec (d : Dialect) (t : TableMap) (i : Nat) (vcol : ColumnMap)
    (hfresh : t.insertPlan = {}) (hv : t.version = some i)
    (hcol : t.columns.get? i = some vcol)
    (htr : vcol.Transient = false) (hai : vcol.isAutoIncr = false) :
    (buildInsertPlan d t).versField = vcol.fieldName ∧
    (buildInsertPlan d t).keyFields = [] ∧
    (buildInsertPlan d t).argFields = insFields t := by
  have hmem := enum_mem_of_get? t.columns i vcol hcol
  have hnd := List.nodup_enum_map_fst t.columns
  have hvf := insColsLoop_versField_eq d t.version i vcol htr hai hv t.columns.enum hnd hmem
  refine ⟨?_, ?_, ?_⟩
  · simp [buildInsertPlan, hvf]
  · simp [buildInsertPlan, insColsLoop_keyFields, hfresh]
  · simp [buildInsertPlan, insColsLoop_argFields, hfresh, insFields]

/-- The version sentinel occurs among the insert plan's argument fields
whenever the version column is bindable. -/
theorem versFieldConst_mem_insFields (t : TableMap) (i : Nat) (vcol : ColumnMap)
    (hv : t.version = some i) (hcol : t.columns.get? i = some vcol)
    (htr : vcol.Transient = false) (hai : vcol.isAutoIncr = false) :
    versFieldConst ∈ insFields t := by
  unfold insFields
  refine List.mem_map.2 ⟨(i, vcol), ?_, by simp [hv]⟩
  exact List.mem_filter.2 ⟨enum_mem_of_get? t.columns i vcol hcol, by simp [htr, hai]⟩

theorem updateExistingTable_some_spec (ty : GoType) (name : String) (r : TableMap) :
    ∀ (l l' : List TableMap), updateExistingTable l ty name = some (r, l') →
    l'.map (fun tb => tb.gotype) = l.map (fun tb => tb.gotype) ∧
    r.gotype = ty ∧ r.TableName = name ∧ r ∈ l' ∧ l'.length = l.length := by
  intro l
  induction l with
  | nil => intro l' h; simp [updateExistingTable] at h
  | cons tbl rest ih =>
    intro l' h
    rw [updateExistingTable] at h
    by_cases hg : tbl.gotype = ty
    · rw [if_pos hg] at h
      simp only [Option.some.injEq, Prod.mk.injEq] at h
      obtain ⟨hr, hl⟩ := h
      subst hr
      subst hl
      exact ⟨by simp [hg], hg, rfl, List.mem_cons_self _ _, by simp⟩
    · rw [if_neg hg] at h
      cases hle : updateExistingTable rest ty name with
      | none => rw [hle] at h; simp at h
      | some pr =>
        rw [hle] at h
        obtain ⟨r0, rest'⟩ := pr
        simp only [Option.some.injEq, Prod.mk.injEq] at h
        obtain ⟨hr, hl⟩ := h
        subst hr
        subst hl
        obtain ⟨hmap, hgo, hname, hmem, hlen⟩ := ih rest' hle
        exact ⟨by simp [hmap], hgo, hname, List.mem_cons_of_mem _ hmem, by simp [hlen]⟩

theorem updateExistingTable_none_spec (ty : GoType) (name : String) :
    ∀ l : List TableMap, updateExistingTable l ty name = none →
    ∀ tb ∈ l, tb.gotype ≠ ty := by
  intro l
  induction l with
  | nil => intro _ tb htb; simp at htb
  | cons tbl rest ih =>
    intro h tb htb
    rw [updateExistingTable] at h
    by_cases hg : tbl.gotype = ty
    · rw [if_pos hg] at h; simp at h
    · rw [if_neg hg] at h
      rcases List.mem_cons.1 htb with rfl | htb'
      · exact hg
      · cases hle : updateExistingTable rest ty name with
        | none => exact ih hle tb htb'
        | some pr => rw [hle] at h; obtain ⟨a, b⟩ := pr; simp at h

/-! ## Supporting lemmas for struct introspection -/

theorem nontransientNames_cons (c : ColumnMap) (cols : List ColumnMap) :
    nontransientNames (c :: cols) =
      if c.Transient then nontransientNames cols
      else c.fieldName :: nontransientNames cols := by
  by_cases h : c.Transient <;> simp [nontransientNames, List.filter_cons, h]

theorem nontransientNames_append (l1 l2 : List ColumnMap) :
    nontransientNames (l1 ++ l2) = nontransientNames l1 ++ nontransientNames l2 := by
  simp [nontransientNames, List.filter_append]

theorem mem_nontransientNames (x : String) (cols : List ColumnMap) :
    x ∈ nontransientNames cols ↔ ∃ c ∈ cols, ¬c.Transient ∧ c.fieldName = x := by
  simp [nontransientNames, List.mem_filter, and_assoc]

theorem appendSubCol_nodup (cols : List ColumnMap) (subcol : ColumnMap)
    (h : (nontransientNames cols).Nodup) :
    (nontransientNames (appendSubCol cols subcol)).Nodup := by
  unfold appendSubCol
  split
  · exact h
  · rename_i hcond
    rw [nontransientNames_append]
    by_cases ht : subcol.Transient
    · have h1 : nontransientNames [subcol] = [] := by
        simp [nontransientNames, ht]
      rw [h1, List.append_nil]
      exact h
    · have h1 : nontransientNames [subcol] = [subcol.fieldName] := by
        simp [nontransientNames, ht]
      have hnot : ∀ col ∈ cols, subcol.fieldName ≠ col.fieldName := by
        intro col hc
        by_contra heq
        exact hcond ⟨by simpa using ht, List.any_eq_true.2 ⟨col, hc, by simpa using heq⟩⟩
      have hni : subcol.fieldName ∉ nontransientNames cols := by
        rw [mem_nontransientNames]
        rintro ⟨c, hc, -, hfn⟩
        exact hnot c hc hfn.symm
      rw [h1]
      refine List.Nodup.append h (List.nodup_singleton _) ?_
      intro a ha hb
      rw [List.mem_singleton] at hb
      exact hni (hb ▸ ha)

theorem foldl_appendSubCol_nodup (subcols : List ColumnMap) (cols : List ColumnMap)
    (h : (nontransientNames cols).Nodup) :
    (nontransientNames (subcols.foldl appendSubCol cols)).Nodup := by
  induction subcols generalizing cols with
  | nil => exact h
  | cons s rest ih => exact ih _ (appendSubCol_nodup cols s h)

theorem mem_nontransientNames_overrideCol (cols : List ColumnMap) (cm : ColumnMap)
    (x : String) (h : x ∈ nontransientNames (overrideCol cols cm)) :
    x ∈ nontransientNames cols ∨ x = cm.fieldName := by
  induction cols with
  | nil =>
    by_cases hct : cm.Transient <;> simp [overrideCol, nontransientNames, hct] at h
    exact Or.inr h
  | cons col rest ih =>
    rw [overrideCol] at h
    by_cases hm : ¬(col.Transient = true) ∧ col.fieldName = cm.fieldName
    · rw [if_pos hm] at h
      rw [nontransientNames_cons] at h ⊢
      rw [if_neg (by simpa using hm.1)]
      by_cases hcmt : cm.Transient
      · rw [if_pos hcmt] at h
        exact Or.inl (List.mem_cons_of_mem _ h)
      · rw [if_neg hcmt] at h
        rcases List.mem_cons.1 h with h | h
        · exact Or.inr h
        · exact Or.inl (List.mem_cons_of_mem _ h)
    · rw [if_neg hm] at h
      by_cases hct : col.Transient
      · rw [nontransientNames_cons, if_pos hct] at h
        rw [nontransientNames_cons, if_pos hct]
        exact ih h
      · rw [nontransientNames_cons, if_neg hct] at h
        rw [nontransientNames_cons, if_neg hct]
        rcases List.mem_cons.1 h with h | h
        · exact Or.inl (by simp [h])
        · rcases ih h with h' | h'
          · exact Or.inl (List.mem_cons_of_mem _ h')
          · exact Or.inr h'

theorem overrideCol_nodup (cols : List ColumnMap) (cm : ColumnMap)
    (h : (nontransientNames cols).Nodup) :
    (nontransientNames (overrideCol cols cm)).Nodup := by
  induction cols with
  | nil =>
    by_cases hct : cm.Transient <;> simp [overrideCol, nontransientNames, hct]
  | cons col rest ih =>
    rw [overrideCol]
    by_cases hm : ¬(col.Transient = true) ∧ col.fieldName = cm.fieldName
    · rw [if_pos hm]
      rw [nontransientNames_cons, if_neg (by simpa using hm.1)] at h
      rw [nontransientNames_cons]
      by_cases hcmt : cm.Transient
      · rw [if_pos hcmt]
        exact h.of_cons
      · rw [if_neg hcmt]
        exact List.Nodup.cons (fun hx => (hm.2 ▸ h).not_mem hx) h.of_cons
    · rw [if_neg hm]
      by_cases hct : col.Transient
      · rw [nontransientNames_cons, if_pos hct] at h
        rw [nontransientNames_cons, if_pos hct]
        exact ih h
      · rw [nontransientNames_cons, if_neg hct] at h
        rw [nontransientNames_cons, if_neg hct]
        refine List.Nodup.cons ?_ (ih h.of_cons)
        intro hmem
        rcases mem_nontransientNames_overrideCol rest cm _ hmem with h' | h'
        · exact h.not_mem h'
        · exact hm ⟨by simpa using hct, h'⟩

theorem readStructFields_nodup (fs : List FieldDecl) : ∀ (cols : List ColumnMap)
    (version : Option ColumnMap), (nontransientNames cols).Nodup →
    (nontransientNames (readStructFields fs cols version).1).Nodup := by
  induction fs with
  | nil =>
    intro cols version h
    simpa [readStructFields] using h
  | cons f rest ih =>
    intro cols version h
    cases f with
    | embedded sub =>
      rw [readStructFields]
      exact ih _ _ (foldl_appendSubCol_nodup _ _ h)
    | plain fname tag =>
      rw [readStructFields]
      exact ih _ _ (overrideCol_nodup _ _ h)

/-- C1: on Update or Delete of a versioned record with a nonzero in-memory
version, a zero rows-affected report triggers the optimistic-lock path: the
row is reloaded by its key values and the call returns the sentinel count
`-1` together with an `OptimisticLockError` whose `RowExists` is `true`
exactly when the reload still finds a row with those keys and `false` when
it does not. -/
theorem update_delete_zero_rows_lock_error (m : DbConf) (t : TableMap) (elem : Elem)
    (i : Nat) (vcol : ColumnMap) (ver : Int) (vals : List GoValue)
    (hconv : m.conv = none)
    (hv : t.version = some i) (hcol : t.columns.get? i = some vcol)
    (hpk : vcol.isPK = false) (htr : vcol.Transient = false)
    (hfn : vcol.fieldName ≠ "")
    (hev : elem.getInt vcol.fieldName = ver) (hpos : 0 < ver)
    (hfreshU : t.updatePlan = {}) (hfreshD : t.deletePlan = {})
    (hfreshG : t.getPlan = {})
    (hlen : vals.length = (t.columns.filter (fun c => !c.Transient)).length) :
    (∀ exec : Executor, (∀ q a, exec.execStmt q a = ExecOutcome.rows 0) →
      (∀ q a, exec.queryRow q a = RowResult.row vals) →
      (update m exec [(t, elem)]).1 =
        (-1, some (GErr.optimisticLock
          { TableName := t.TableName,
            Keys := (keyNames t).map (fun k => elem.fieldByName k),
            RowExists := true, LocalVersion := ver })) ∧
      (delete m exec [(t, elem)]).1 =
        (-1, some (GErr.optimisticLock
          { TableName := t.TableName,
            Keys := (keyNames t).map (fun k => elem.fieldByName k),
            RowExists := true, LocalVersion := ver }))) ∧
    (∀ exec : Executor, (∀ q a, exec.execStmt q a = ExecOutcome.rows 0) →
      (∀ q a, exec.queryRow q a = RowResult.noRows) →
      (update m exec [(t, elem)]).1 =
        (-1, some (GErr.optimisticLock
          { TableName := t.TableName,
            Keys := (keyNames t).map (fun k => elem.fieldByName k),
            RowExists := false, LocalVersion := ver })) ∧
      (delete m exec [(t, elem)]).1 =
        (-1, some (GErr.optimisticLock
          { TableName := t.TableName,
            Keys := (keyNames t).map (fun k => elem.fieldByName k),
            RowExists := false, LocalVersion := ver }))) := by
  have h0 : ¬ver = 0 := by omega
  obtain ⟨huvf, hukf, huaf⟩ :=
    buildUpdatePlan_spec m.dialect t i vcol hfreshU hv hcol hpk htr hfn
  obtain ⟨hdvf, hdkf, hdaf⟩ :=
    buildDeletePlan_spec m.dialect t i vcol hfreshD hv hcol htr hfn
  have hbiU := createBindInstance_none_ne_zero (buildUpdatePlan m.dialect t) elem ver
    (by rw [huvf]; exact hfn) (by rw [huvf]; exact hev) h0
  have hbiD := createBindInstance_none_ne_zero (buildDeletePlan m.dialect t) elem ver
    (by rw [hdvf]; exact hfn) (by rw [hdvf]; exact hev) h0
  have hglen : ∀ t' : TableMap, t'.getPlan = ({} : bindPlan) → t'.columns = t.columns →
      (buildGetPlan m.dialect t').argFields.length = vals.length := by
    intro t' hg hc
    rw [buildGetPlan_argFields, hg, hc, hlen]
    simp
  constructor
  · intro exec hexec hrow
    constructor
    · simp only [update, updateLoop, TableMap.bindUpdate, hfreshU, hconv]
      rw [if_pos trivial]
      rw [hbiU]
      simp only [hexec]
      rw [if_pos ⟨trivial, hpos⟩]
      simp only [lockError, get, TableMap.bindGet, hfreshG]
      rw [if_pos trivial]
      simp only [hrow]
      rw [if_pos (by simp [buildGetPlan_argFields, hlen])]
      simp [hukf, keyNames]
    · simp only [delete, deleteLoop, TableMap.bindDelete, hfreshD, hconv]
      rw [if_pos trivial]
      rw [hbiD]
      simp only [hexec]
      rw [if_pos ⟨trivial, hpos⟩]
      simp only [lockError, get, TableMap.bindGet, hfreshG]
      rw [if_pos trivial]
      simp only [hrow]
      rw [if_pos (by simp [buildGetPlan_argFields, hlen])]
      simp [hdkf, keyNames]
  · intro exec hexec hrow
    constructor
    · simp only [update, updateLoop, TableMap.bindUpdate, hfreshU, hconv]
      rw [if_pos trivial]
      rw [hbiU]
      simp only [hexec]
      rw [if_pos ⟨trivial, hpos⟩]
      simp only [lockError, get, TableMap.bindGet, hfreshG]
      rw [if_pos trivial]
      simp only [hrow]
      simp [hukf, keyNames]
    · simp only [delete, deleteLoop, TableMap.bindDelete, hfreshD, hconv]
      rw [if_pos trivial]
      rw [hbiD]
      simp only [hexec]
      rw [if_pos ⟨trivial, hpos⟩]
      simp only [lockError, get, TableMap.bindGet, hfreshG]
      rw [if_pos trivial]
      simp only [hrow]
      simp [hdkf, keyNames]

/-- C1 witness: a versioned invoice row with local version 7, a driver that
reports zero affected rows, and a reload that finds (resp. misses) the row. -/
theorem update_delete_zero_rows_lock_error_witness :
    (update stdConf execZeroRowFound [(invoiceTable, invElem 7)]).1 =
      (-1, some (GErr.optimisticLock
        { TableName := "invoice_test", Keys := [GoValue.vint 5],
          RowExists := true, LocalVersion := 7 })) ∧
    (delete stdConf execZeroNoRow [(invoiceTable, invElem 7)]).1 =
      (-1, some (GErr.optimisticLock
        { TableName := "invoice_test", Keys := [GoValue.vint 5],
          RowExists := false, LocalVersion := 7 })) := by
  have h := update_delete_zero_rows_lock_error stdConf invoiceTable (invElem 7) 2
    { ColumnName := "Version", fieldName := "Version" } 7
    [GoValue.vint 5, GoValue.vstr "hi", GoValue.vint 9]
    rfl rfl rfl rfl rfl (by decide) rfl (by decide) rfl rfl rfl rfl
  exact ⟨(h.1 execZeroRowFound (fun _ _ => rfl) (fun _ _ => rfl)).1,
         (h.2 execZeroNoRow (fun _ _ => rfl) (fun _ _ => rfl)).2⟩

/-- C10: when a versioned record's in-memory version field is zero, an Update
or Delete whose statement affects zero rows does not enter the
optimistic-lock path: the call returns a cumulative count of 0 with no
error. -/
theorem zero_version_zero_rows_no_lock_error (m : DbConf) (t : TableMap) (elem : Elem)
    (i : Nat) (vcol : ColumnMap)
    (hconv : m.conv = none)
    (hv : t.version = some i) (hcol : t.columns.get? i = some vcol)
    (hpk : vcol.isPK = false) (htr : vcol.Transient = false)
    (hfn : vcol.fieldName ≠ "")
    (hev : elem.getInt vcol.fieldName = 0)
    (hfreshU : t.updatePlan = {}) (hfreshD : t.deletePlan = {})
    (exec : Executor) (hexec : ∀ q a, exec.execStmt q a = ExecOutcome.rows 0) :
    (update m exec [(t, elem)]).1 = (0, none) ∧
    (delete m exec [(t, elem)]).1 = (0, none) := by
  obtain ⟨huvf, _, _⟩ :=
    buildUpdatePlan_spec m.dialect t i vcol hfreshU hv hcol hpk htr hfn
  obtain ⟨hdvf, _, _⟩ :=
    buildDeletePlan_spec m.dialect t i vcol hfreshD hv hcol htr hfn
  have hevU : (if (buildUpdatePlan m.dialect t).versField ≠ "" then
      elem.getInt (buildUpdatePlan m.dialect t).versField else 0) = 0 := by
    rw [huvf, if_pos hfn, hev]
  have hevD : (if (buildDeletePlan m.dialect t).versField ≠ "" then
      elem.getInt (buildDeletePlan m.dialect t).versField else 0) = 0 := by
    rw [hdvf, if_pos hfn, hev]
  constructor
  · obtain ⟨args, elem', hbi⟩ := createBindInstance_none_ok (buildUpdatePlan m.dialect t) elem
    rw [hevU] at hbi
    simp only [update, updateLoop, TableMap.bindUpdate, hfreshU, hconv]
    rw [if_pos trivial]
    rw [hbi]
    simp [hexec]
  · obtain ⟨args, elem', hbi⟩ := createBindInstance_none_ok (buildDeletePlan m.dialect t) elem
    rw [hevD] at hbi
    simp only [delete, deleteLoop, TableMap.bindDelete, hfreshD, hconv]
    rw [if_pos trivial]
    rw [hbi]
    simp [hexec]

/-- C10 witness: the zero-version invoice row with a driver that affects zero
rows comes back with count 0 and no error for both Update and Delete. -/
theorem zero_version_zero_rows_no_lock_error_witness :
    (update stdConf execZeroRowFound [(invoiceTable, invElem 0)]).1 = (0, none) ∧
    (delete stdConf execZeroRowFound [(invoiceTable, invElem 0)]).1 = (0, none) :=
  zero_version_zero_rows_no_lock_error stdConf invoiceTable (invElem 0) 2
    { ColumnName := "Version", fieldName := "Version" }
    rfl rfl rfl rfl rfl (by decide) rfl rfl rfl
    execZeroRowFound (fun _ _ => rfl)

/-- With no TypeConverter and a nonempty version field, `createBindInstance`
succeeds, records the struct's current version, binds current+1 at every
version-sentinel argument slot, and when the current version is zero also
stamps the new version 1 back into the struct. -/
theorem createBindInstance_none_spec (plan : bindPlan) (elem : Elem) (ev : Int)
    (hvf : plan.versField ≠ "") (hev : elem.getInt plan.versField = ev) :
    ∃ bi elem',
    plan.createBindInstance elem none = Except.ok (bi, elem') ∧
    bi.existingVersion = ev ∧ bi.versField = plan.versField ∧
    (∀ j, plan.argFields.get? j = some versFieldConst →
      bi.args.get? j = some (GoValue.vint (ev + 1))) ∧
    (ev = 0 → versFieldConst ∈ plan.argFields →
      elem'.fieldByName plan.versField = GoValue.vint 1) := by
  obtain ⟨args, elem', h⟩ := bindArgsLoop_none_ok plan.versField ev plan.argFields [] elem
  refine ⟨{ query := plan.query, args := args,
            keys := plan.keyFields.map (fun k => elem'.fieldByName k),
            existingVersion := ev, versField := plan.versField,
            autoIncrIdx := plan.autoIncrIdx,
            autoIncrFieldName := plan.autoIncrFieldName },
          elem', ?_, rfl, rfl, ?_, ?_⟩
  · simp only [bindPlan.createBindInstance, if_pos hvf, hev]
    rw [h]
    simp [bindKeysLoop_none]
  · intro j hj
    have := bindArgsLoop_none_vers_pointwise plan.versField ev plan.argFields
      [] elem args elem' h j hj
    simpa using this
  · intro h0 hmem
    subst h0
    exact bindArgsLoop_none_writeback plan.versField plan.argFields [] elem args elem' h hmem

/-- C2: for a type with a version column, Insert binds existing-version+1 at
the version argument slot (writing the new version 1 back into a
zero-version struct), and a successful Update (rows affected positive)
stamps existing-version+1 into the in-memory record. -/
theorem insert_update_version_bump (m : DbConf) (t : TableMap) (elem : Elem)
    (i : Nat) (vcol : ColumnMap) (ver : Int)
    (hconv : m.conv = none)
    (hv : t.version = some i) (hcol : t.columns.get? i = some vcol)
    (hpk : vcol.isPK = false) (htr : vcol.Transient = false)
    (hai : vcol.isAutoIncr = false) (hfn : vcol.fieldName ≠ "")
    (hev : elem.getInt vcol.fieldName = ver)
    (hfreshI : t.insertPlan = {}) (hfreshU : t.updatePlan = {}) :
    (∃ bi elem',
      (t.bindInsert m elem).1 = Except.ok (bi, elem') ∧
      bi.existingVersion = ver ∧
      versFieldConst ∈ insFields t ∧
      (∀ j, (insFields t).get? j = some versFieldConst →
        bi.args.get? j = some (GoValue.vint (ver + 1))) ∧
      (ver = 0 → elem'.fieldByName vcol.fieldName = GoValue.vint 1)) ∧
    (∀ exec : Executor, ∀ n : Int, 0 < n →
      (∀ q a, exec.execStmt q a = ExecOutcome.rows n) →
      (update m exec [(t, elem)]).1 = (n, none) ∧
      ((update m exec [(t, elem)]).2.map
        (fun p => p.2.fieldByName vcol.fieldName)) = [GoValue.vint (ver + 1)]) := by
  obtain ⟨hivf, hikf, hiaf⟩ :=
    buildInsertPlan_spec m.dialect t i vcol hfreshI hv hcol htr hai
  obtain ⟨huvf, hukf, huaf⟩ :=
    buildUpdatePlan_spec m.dialect t i vcol hfreshU hv hcol hpk htr hfn
  have hmemI : versFieldConst ∈ insFields t :=
    versFieldConst_mem_insFields t i vcol hv hcol htr hai
  constructor
  · obtain ⟨bi, elem', hbieq, hbiev, hbivf, hpt, hwb⟩ :=
      createBindInstance_none_spec (buildInsertPlan m.dialect t) elem ver
        (by rw [hivf]; exact hfn) (by rw [hivf]; exact hev)
    refine ⟨bi, elem', ?_, hbiev, hmemI, ?_, ?_⟩
    · simp only [TableMap.bindInsert, hfreshI, hconv]
      rw [if_pos trivial]
      exact hbieq
    · intro j hj
      exact hpt j (by rw [hiaf]; exact hj)
    · intro h0
      have h2 := hwb h0 (by rw [hiaf]; exact hmemI)
      rwa [hivf] at h2
  · obtain ⟨bi, elem', hbieq, hbiev, hbivf, hpt, hwb⟩ :=
      createBindInstance_none_spec (buildUpdatePlan m.dialect t) elem ver
        (by rw [huvf]; exact hfn) (by rw [huvf]; exact hev)
    have hbivf' : bi.versField = vcol.fieldName := hbivf.trans huvf
    intro exec n hn hexec
    have hne : ¬(n = 0 ∧ bi.existingVersion > 0) := fun hc => absurd hc.1 (by omega)
    constructor
    · simp only [update, updateLoop, TableMap.bindUpdate, hfreshU, hconv]
      rw [if_pos trivial, hbieq]
      simp only [hexec]
      rw [if_neg hne]
      simp [updateLoop]
    · simp only [update, updateLoop, TableMap.bindUpdate, hfreshU, hconv]
      rw [if_pos trivial, hbieq]
      simp only [hexec]
      rw [if_neg hne]
      simp [updateLoop, hbivf', hbiev, hfn, Elem.fieldByName_setInt]

/-- C2 witness: the zero-version invoice row gets version 1 bound for Insert
and written back, and a one-row Update bumps the in-memory version to 1. -/
theorem insert_update_version_bump_witness :
    (∃ bi elem',
      (invoiceTable.bindInsert stdConf (invElem 0)).1 = Except.ok (bi, elem') ∧
      bi.existingVersion = 0 ∧
      versFieldConst ∈ insFields invoiceTable ∧
      (∀ j, (insFields invoiceTable).get? j = some versFieldConst →
        bi.args.get? j = some (GoValue.vint (0 + 1))) ∧
      (0 = (0 : Int) → elem'.fieldByName "Version" = GoValue.vint 1)) ∧
    ((update stdConf execOneRow [(invoiceTable, invElem 0)]).1 = (1, none) ∧
      ((update stdConf execOneRow [(invoiceTable, invElem 0)]).2.map
        (fun p => p.2.fieldByName "Version")) = [GoValue.vint (0 + 1)]) := by
  have h := insert_update_version_bump stdConf invoiceTable (invElem 0) 2
    { ColumnName := "Version", fieldName := "Version" } 0
    rfl rfl rfl rfl rfl rfl (by decide) rfl rfl rfl
  exact ⟨h.1, h.2 execOneRow 1 (by decide) (fun _ _ => rfl)⟩

/-- C3: the column-metadata builder yields exactly one column per
non-transient field name: (a) the non-transient field names of
`readStructColumns`' output are pairwise distinct for every struct type;
(b) a sub-column of an embedded struct whose field name collides with a
column already present in the parent is skipped; (c) a later outer-struct
declaration of a field name replaces the first non-transient embedded
column of that name in place (the outer annotation wins) rather than being
appended. -/
theorem embedded_columns_exactly_once (fields : List FieldDecl)
    (cols pre post : List ColumnMap) (subcol cm col0 : ColumnMap) :
    (nontransientNames (readStructColumns fields).1).Nodup ∧
    (subcol.Transient = false → (∃ col ∈ cols, subcol.fieldName = col.fieldName) →
      appendSubCol cols subcol = cols) ∧
    ((∀ c ∈ pre, c.Transient = true ∨ c.fieldName ≠ cm.fieldName) →
      col0.Transient = false → col0.fieldName = cm.fieldName →
      overrideCol (pre ++ col0 :: post) cm = pre ++ cm :: post) := by
  refine ⟨readStructFields_nodup fields [] none (by simp [nontransientNames]), ?_, ?_⟩
  · rintro ht ⟨col, hc, heq⟩
    unfold appendSubCol
    rw [if_pos ⟨by simp [ht], List.any_eq_true.2 ⟨col, hc, by simpa using heq⟩⟩]
  · intro hpre ht heq
    induction pre with
    | nil =>
      rw [List.nil_append, List.nil_append, overrideCol, if_pos ⟨by simp [ht], heq⟩]
    | cons p ps ih =>
      rw [List.cons_append, List.cons_append, overrideCol]
      have hp := hpre p (List.mem_cons_self p ps)
      rw [if_neg (by rcases hp with h | h <;> simp [h])]
      rw [ih (fun c hc => hpre c (List.mem_cons_of_mem _ hc))]

theorem embedded_columns_exactly_once_witness :
    (nontransientNames (readStructColumns
      [FieldDecl.embedded [FieldDecl.plain "Id" "", FieldDecl.plain "Name" "inner_name"],
       FieldDecl.plain "Name" "outer_name"]).1).Nodup ∧
    appendSubCol [{ ColumnName := "Name", fieldName := "Name" }]
        { ColumnName := "inner_name", fieldName := "Name" } =
      [{ ColumnName := "Name", fieldName := "Name" }] ∧
    overrideCol [{ ColumnName := "Id", fieldName := "Id" },
                 { ColumnName := "inner_name", fieldName := "Name" }]
        { ColumnName := "outer_name", fieldName := "Name" } =
      [{ ColumnName := "Id", fieldName := "Id" },
       { ColumnName := "outer_name", fieldName := "Name" }] := by
  have h := embedded_columns_exactly_once
    [FieldDecl.embedded [FieldDecl.plain "Id" "", FieldDecl.plain "Name" "inner_name"],
     FieldDecl.plain "Name" "outer_name"]
    [{ ColumnName := "Name", fieldName := "Name" }]
    [{ ColumnName := "Id", fieldName := "Id" }] []
    { ColumnName := "inner_name", fieldName := "Name" }
    { ColumnName := "outer_name", fieldName := "Name" }
    { ColumnName := "inner_name", fieldName := "Name" }
  exact ⟨h.1,
    h.2.1 rfl ⟨{ ColumnName := "Name", fieldName := "Name" }, by decide, rfl⟩,
    h.2.2 (by decide) rfl rfl⟩

/-- C4 (amended): `SetKeys`, `SetUniqueTogether` and `SetVersionCol` clear
all four cached binding plans of the table; the `ColumnMap` methods
`Rename` and `SetTransient` do not — they only assign the column field and
leave every cached plan untouched, so callers must invoke `ResetSql`
separately after them. -/
theorem metadata_mutation_plan_invalidation (t : TableMap) (isAuto b : Bool)
    (names : List String) (f n : String) :
    (∀ t', t.SetKeys isAuto names = Except.ok t' →
      t'.insertPlan = {} ∧ t'.updatePlan = {} ∧ t'.deletePlan = {} ∧ t'.getPlan = {}) ∧
    (∀ t', t.SetUniqueTogether names = Except.ok t' →
      t'.insertPlan = {} ∧ t'.updatePlan = {} ∧ t'.deletePlan = {} ∧ t'.getPlan = {}) ∧
    (∀ t', t.SetVersionCol f = Except.ok t' →
      t'.insertPlan = {} ∧ t'.updatePlan = {} ∧ t'.deletePlan = {} ∧ t'.getPlan = {}) ∧
    (∀ t', t.renameColumn f n = Except.ok t' →
      t'.insertPlan = t.insertPlan ∧ t'.updatePlan = t.updatePlan ∧
      t'.deletePlan = t.deletePlan ∧ t'.getPlan = t.getPlan) ∧
    (∀ t', t.setTransientColumn f b = Except.ok t' →
      t'.insertPlan = t.insertPlan ∧ t'.updatePlan = t.updatePlan ∧
      t'.deletePlan = t.deletePlan ∧ t'.getPlan = t.getPlan) := by
  refine ⟨?_, ?_, ?_, ?_, ?_⟩ <;> intro t' h
  · rw [TableMap.SetKeys] at h
    split at h
    · exact absurd h (by simp)
    · cases hl : setKeysLoop { t with keys := [] } isAuto names with
      | error e => rw [hl] at h; exact absurd h (by simp)
      | ok t2 =>
        rw [hl] at h
        simp only [Except.ok.injEq] at h
        subst h
        exact ⟨rfl, rfl, rfl, rfl⟩
  · rw [TableMap.SetUniqueTogether] at h
    split at h
    · exact absurd h (by simp)
    · simp only [Except.ok.injEq] at h
      subst h
      exact ⟨rfl, rfl, rfl, rfl⟩
  · rw [TableMap.SetVersionCol] at h
    cases hc : t.ColMap f with
    | error e => rw [hc] at h; exact absurd h (by simp)
    | ok i =>
      rw [hc] at h
      simp only [Except.ok.injEq] at h
      subst h
      exact ⟨rfl, rfl, rfl, rfl⟩
  · rw [TableMap.renameColumn] at h
    cases hc : t.ColMap f with
    | error e => rw [hc] at h; exact absurd h (by simp)
    | ok i =>
      rw [hc] at h
      simp only [Except.ok.injEq] at h
      subst h
      exact ⟨rfl, rfl, rfl, rfl⟩
  · rw [TableMap.setTransientColumn] at h
    cases hc : t.ColMap f with
    | error e => rw [hc] at h; exact absurd h (by simp)
    | ok i =>
      rw [hc] at h
      simp only [Except.ok.injEq] at h
      subst h
      exact ⟨rfl, rfl, rfl, rfl⟩

theorem metadata_mutation_plan_invalidation_witness :
    (∀ t', invoiceTable.SetKeys false ["Id"] = Except.ok t' →
      t'.insertPlan = {} ∧ t'.updatePlan = {} ∧ t'.deletePlan = {} ∧ t'.getPlan = {}) ∧
    (∀ t', cachedInvoiceTable.renameColumn "Memo" "date_memo" = Except.ok t' →
      t'.insertPlan = cachedInvoiceTable.insertPlan ∧
      t'.updatePlan = cachedInvoiceTable.updatePlan ∧
      t'.deletePlan = cachedInvoiceTable.deletePlan ∧
      t'.getPlan = cachedInvoiceTable.getPlan) :=
  ⟨(metadata_mutation_plan_invalidation invoiceTable false false ["Id"] "Id" "id").1,
   (metadata_mutation_plan_invalidation cachedInvoiceTable false false [] "Memo"
      "date_memo").2.2.2.1⟩

/-- C4 counterexample: renaming a column does not clear the cached plans.
The invoice table has a cached (nonempty) get plan; after
`ColMap("Memo").Rename("date_memo")` the cached get plan is still the old
compiled SELECT, not the cleared zero plan — refuting the claim that every
metadata mutation, column rename included, clears all four cached binding
plans. -/
theorem metadata_mutation_plan_invalidation_cex :
    cachedInvoiceTable.getPlan.query =
      "select `Id`,`Memo`,`Version` from `invoice_test` where `Id`=?;" ∧
    (cachedInvoiceTable.renameColumn "Memo" "date_memo").map TableMap.getPlan =
      Except.ok cachedInvoiceTable.getPlan ∧
    cachedInvoiceTable.getPlan ≠ {} := by
  refine ⟨rfl, rfl, by decide⟩

/-- C7: registration is idempotent.  Starting from a registry whose
entries' go types are pairwise distinct, registering a type leaves the go
types pairwise distinct, yields exactly one entry for that type, and
returns a table with that type and the resolved name that is itself in the
registry; when the type is already registered, the table list keeps its
length and its type sequence (the existing entry is updated in place, no
duplicate is appended). -/
theorem add_table_idempotent (m : DbRegistry) (i : GoType) (schema name : String)
    (hnd : (m.tables.map (fun tb => tb.gotype)).Nodup) :
    (((addTableWithNameAndSchema m i schema name).2.tables.map
        (fun tb => tb.gotype)).Nodup ∧
      ((addTableWithNameAndSchema m i schema name).2.tables.map
        (fun tb => tb.gotype)).count i = 1 ∧
      (addTableWithNameAndSchema m i schema name).1.gotype = i ∧
      (addTableWithNameAndSchema m i schema name).1.TableName =
        (if name = "" then i.name else name) ∧
      (addTableWithNameAndSchema m i schema name).1 ∈
        (addTableWithNameAndSchema m i schema name).2.tables) ∧
    ((∃ tb ∈ m.tables, tb.gotype = i) →
      (addTableWithNameAndSchema m i schema name).2.tables.length = m.tables.length ∧
      (addTableWithNameAndSchema m i schema name).2.tables.map (fun tb => tb.gotype) =
        m.tables.map (fun tb => tb.gotype)) := by
  rw [addTableWithNameAndSchema]
  cases he : updateExistingTable m.tables i (if name = "" then i.name else name) with
  | some pr =>
    obtain ⟨r, tables'⟩ := pr
    obtain ⟨hmap, hgo, hname, hmem, hlen⟩ :=
      updateExistingTable_some_spec i (if name = "" then i.name else name) r m.tables tables' he
    have hin : i ∈ tables'.map (fun tb => tb.gotype) :=
      hgo ▸ List.mem_map_of_mem (fun tb => tb.gotype) hmem
    refine ⟨⟨hmap ▸ hnd, ?_, hgo, hname, hmem⟩, fun _ => ⟨hlen, hmap⟩⟩
    exact List.count_eq_one_of_mem (hmap ▸ hnd) hin
  | none =>
    have hne := updateExistingTable_none_spec i (if name = "" then i.name else name) m.tables he
    have hni : i ∉ m.tables.map (fun tb => tb.gotype) := by
      rw [List.mem_map]
      rintro ⟨tb, htb, hgo⟩
      exact hne tb htb hgo
    constructor
    · refine ⟨?_, ?_, rfl, rfl, ?_⟩
      · simp only [List.map_append, List.map_cons, List.map_nil]
        exact List.Nodup.append hnd (List.nodup_singleton _)
          (fun a ha hb => hni ((List.mem_singleton.1 hb) ▸ ha))
      · simp only [List.map_append, List.map_cons, List.map_nil, List.count_append]
        rw [List.count_eq_zero_of_not_mem hni]
        simp [List.count_cons]
      · simp
    · rintro ⟨tb, htb, hgo⟩
      exact absurd hgo (hne tb htb)

theorem add_table_idempotent_witness :
    (((addTableWithNameAndSchema
        { tables := [invoiceTable] } invoiceTable.gotype "" "renamed").2.tables.map
          (fun tb => tb.gotype)).count invoiceTable.gotype = 1) ∧
    (addTableWithNameAndSchema
        { tables := [invoiceTable] } invoiceTable.gotype "" "renamed").2.tables.length = 1 :=
  ⟨((add_table_idempotent { tables := [invoiceTable] } invoiceTable.gotype "" "renamed"
      (by decide)).1).2.1,
   ((add_table_idempotent { tables := [invoiceTable] } invoiceTable.gotype "" "renamed"
      (by decide)).2 ⟨invoiceTable, List.mem_cons_self _ _, rfl⟩).1⟩

/-- C5: for every registered table and each of the four operations, the
binding-plan builder is idempotent: the `once`-guarded build body runs at
most once per table per operation, and every subsequent call (for update,
with any column filter) returns the same compiled SQL text and the same
ordered argument/key field lists as the first call, leaving the cached
plan untouched — each operation's second call is a fixed point of the
first. -/
theorem bind_plans_built_once (d : TB.Dialect) (t : TB.TableMap) (f1 f2 : TB.ColumnFilter) :
    TB.TableMap.bindInsertPlan d (TB.TableMap.bindInsertPlan d t).2 =
      TB.TableMap.bindInsertPlan d t ∧
    TB.TableMap.bindUpdatePlan d f2 (TB.TableMap.bindUpdatePlan d f1 t).2 =
      TB.TableMap.bindUpdatePlan d f1 t ∧
    TB.TableMap.bindDeletePlan d (TB.TableMap.bindDeletePlan d t).2 =
      TB.TableMap.bindDeletePlan d t ∧
    TB.TableMap.bindGetPlan d (TB.TableMap.bindGetPlan d t).2 =
      TB.TableMap.bindGetPlan d t := by
  refine ⟨?_, ?_, ?_, ?_⟩
  · by_cases h : t.insertPlan.done <;>
      simp [TB.TableMap.bindInsertPlan, h, TB.buildInsertPlan_done]
  · by_cases h : t.updatePlan.done <;>
      simp [TB.TableMap.bindUpdatePlan, h, TB.buildUpdatePlan_done]
  · by_cases h : t.deletePlan.done <;>
      simp [TB.TableMap.bindDeletePlan, h, TB.buildDeletePlan_done]
  · by_cases h : t.getPlan.done <;>
      simp [TB.TableMap.bindGetPlan, h, TB.buildGetPlan_done]

/-- C6: a `Get` whose SELECT matches zero rows returns a nil result and a
nil error — the driver's `sql.ErrNoRows` is swallowed into the absence
result — while any other scan or execution error is returned to the caller
unchanged. -/
theorem get_no_rows_not_error (m : DbConf) (t : TableMap) (keys : List GoValue) :
    (∀ exec : Executor, (∀ q a, exec.queryRow q a = RowResult.noRows) →
      (get m exec t keys).1 = Except.ok none) ∧
    (∀ (exec : Executor) (e : GErr), (∀ q a, exec.queryRow q a = RowResult.rowErr e) →
      (get m exec t keys).1 = Except.error e) := by
  constructor
  · intro exec h
    simp [get, h]
  · intro exec e h
    simp [get, h]

theorem get_no_rows_not_error_witness :
    (get stdConf execZeroNoRow invoiceTable [GoValue.vint 1]).1 = Except.ok none ∧
    (get stdConf execQueryErr invoiceTable [GoValue.vint 1]).1 =
      Except.error (GErr.dbErr "boom") :=
  ⟨(get_no_rows_not_error stdConf invoiceTable [GoValue.vint 1]).1 execZeroNoRow
      (fun _ _ => rfl),
   (get_no_rows_not_error stdConf invoiceTable [GoValue.vint 1]).2 execQueryErr
      (GErr.dbErr "boom") (fun _ _ => rfl)⟩

/-- C8: the first `Commit` or `Rollback` of a transaction marks it closed
and issues exactly one commit/rollback to the driver; calling `Commit` or
`Rollback` on an already-finished transaction reports `sql.ErrTxDone` and
leaves the driver untouched (the transaction state, including the count of
driver operations, is unchanged). -/
theorem transaction_finished_reports_txdone (t : Transaction) (r r' : Option GErr)
    (h : t.closed = false) :
    ((t.Commit r).2.closed = true ∧ (t.Commit r).1 = r ∧
      (t.Commit r).2.tx.commits = t.tx.commits + 1 ∧
      (t.Commit r).2.tx.rollbacks = t.tx.rollbacks ∧
      (t.Commit r).2.Commit r' = (some GErr.errTxDone, (t.Commit r).2) ∧
      (t.Commit r).2.Rollback r' = (some GErr.errTxDone, (t.Commit r).2)) ∧
    ((t.Rollback r).2.closed = true ∧ (t.Rollback r).1 = r ∧
      (t.Rollback r).2.tx.rollbacks = t.tx.rollbacks + 1 ∧
      (t.Rollback r).2.tx.commits = t.tx.commits ∧
      (t.Rollback r).2.Commit r' = (some GErr.errTxDone, (t.Rollback r).2) ∧
      (t.Rollback r).2.Rollback r' = (some GErr.errTxDone, (t.Rollback r).2)) := by
  simp [Transaction.Commit, Transaction.Rollback, h]

theorem transaction_finished_reports_txdone_witness :
    (Transaction.closed {} = false) ∧
    ((Transaction.Commit {} none).2.Commit none =
      (some GErr.errTxDone, (Transaction.Commit {} none).2)) ∧
    ((Transaction.Rollback {} none).2.Rollback none =
      (some GErr.errTxDone, (Transaction.Rollback {} none).2)) :=
  ⟨rfl,
   (transaction_finished_reports_txdone {} none none rfl).1.2.2.2.2.1,
   (transaction_finished_reports_txdone {} none none rfl).2.2.2.2.2.2⟩

/-- C9: generating MySQL table-creation SQL with an unconfigured storage
engine or encoding fails loudly with a panic message naming the missing
setting(s); with both configured it returns the
`engine=<engine> charset=<encoding>` suffix. -/
theorem mysql_create_table_suffix_requires_config (e c : String) :
    (e = "" → c ≠ "" → MySQLDialect.CreateTableSuffix ⟨e, c⟩ = Except.error
      "gorp - undefined MySQLDialect.Engine. Check that your MySQLDialect was correctly initialized when declared.") ∧
    (e ≠ "" → c = "" → MySQLDialect.CreateTableSuffix ⟨e, c⟩ = Except.error
      "gorp - undefined MySQLDialect.Encoding. Check that your MySQLDialect was correctly initialized when declared.") ∧
    (e = "" → c = "" → MySQLDialect.CreateTableSuffix ⟨e, c⟩ = Except.error
      "gorp - undefined MySQLDialect.Engine, MySQLDialect.Encoding. Check that your MySQLDialect was correctly initialized when declared.") ∧
    (e ≠ "" → c ≠ "" → MySQLDialect.CreateTableSuffix ⟨e, c⟩ =
      Except.ok (" engine=" ++ e ++ " charset=" ++ c)) := by
  refine ⟨?_, ?_, ?_, ?_⟩ <;> intro h1 h2 <;>
    simp [MySQLDialect.CreateTableSuffix, h1, h2]

theorem mysql_create_table_suffix_requires_config_witness :
    MySQLDialect.CreateTableSuffix ⟨"", ""⟩ = Except.error
      "gorp - undefined MySQLDialect.Engine, MySQLDialect.Encoding. Check that your MySQLDialect was correctly initialized when declared." ∧
    MySQLDialect.CreateTableSuffix ⟨"InnoDB", "UTF8"⟩ =
      Except.ok " engine=InnoDB charset=UTF8" :=
  ⟨(mysql_create_table_suffix_requires_config "" "").2.2.1 rfl rfl,
   (mysql_create_table_suffix_requires_config "InnoDB" "UTF8").2.2.2
      (by decide) (by decide)⟩

end Gorp
